import Mathlib

/-!
# Desktop calculator: relational state manager

A shallow embedding of `src/js/stateManager.js` (class `StateManager`): the three
editable collections, the derived master collection, the cascading project
delete, the per-collection dirty flags and the save methods; of the load, save, merge
and validation methods of `src/js/csvManager.js`; of the handlers of
`src/js/uiManager.js` that change a project's name and of its bulk upload; and of the
read and write handlers of `src/main.js`. The CSV text format, which the sources leave
to a library, is modelled from the specification.

JavaScript values are modelled as follows.
* A string is a Lean `String`; the string primitives used by the source
  (`split(',')`, `trim()`, `join(', ')`) are defined on the character list.
* A record (a row parsed from a CSV file, or an object literal built by the
  user interface) is an association list from field name to string value, in
  insertion order. Reading a field that is absent yields `none` (`undefined`).
* An array is a `List`; `forEach` with `push` is a left fold that appends.
* An index is an `Int` (the user interface passes the result of `parseInt`).
-/

namespace Calculator

/-! ## String primitives -/

/-- White space and line terminators removed by `String.prototype.trim`. -/
def isJsWhitespace (c : Char) : Bool :=
  c.toNat == 0x09 || c.toNat == 0x0A || c.toNat == 0x0B || c.toNat == 0x0C ||
  c.toNat == 0x0D || c.toNat == 0x20 || c.toNat == 0xA0 || c.toNat == 0x1680 ||
  (0x2000 ≤ c.toNat && c.toNat ≤ 0x200A) || c.toNat == 0x2028 || c.toNat == 0x2029 ||
  c.toNat == 0x202F || c.toNat == 0x205F || c.toNat == 0x3000 || c.toNat == 0xFEFF

/-- Split a character list at every occurrence of `sep`; the result is never empty. -/
def splitChars (sep : Char) : List Char → List (List Char)
  | [] => [[]]
  | c :: cs =>
    if c = sep then [] :: splitChars sep cs
    else
      match splitChars sep cs with
      | [] => [[c]]
      | t :: ts => (c :: t) :: ts

/-- Remove leading and trailing white space from a character list. -/
def trimChars (l : List Char) : List Char :=
  ((l.dropWhile isJsWhitespace).reverse.dropWhile isJsWhitespace).reverse

/-- Concatenate character lists, putting `sep` between consecutive ones. -/
def joinChars (sep : List Char) : List (List Char) → List Char
  | [] => []
  | [t] => t
  | t :: u :: ts => t ++ sep ++ joinChars sep (u :: ts)

/-- The source's `s.split(',')`. -/
def jsSplit (s : String) : List String :=
  (splitChars ',' s.data).map String.mk

/-- The source's `s.trim()`. -/
def jsTrim (s : String) : String :=
  String.mk (trimChars s.data)

/-- The source's `xs.join(', ')`. -/
def jsJoin (xs : List String) : String :=
  String.mk (joinChars [',', Char.ofNat 32] (xs.map String.data))

/-! ## Records and JavaScript truthiness -/

/-- A row object: field names with their string values, in insertion order. -/
abbrev Record := List (String × String)

/-- Property read `r[k]`; `none` stands for `undefined`. -/
def Record.get (r : Record) (k : String) : Option String :=
  r.lookup k

/-- Property write `r[k] = v`: an existing field keeps its position, a new one goes last. -/
def Record.set : Record → String → String → Record
  | [], k, v => [(k, v)]
  | (k0, v0) :: r, k, v => if k0 = k then (k, v) :: r else (k0, v0) :: Record.set r k v

/-- Truthiness of a value that is a string or `undefined`. -/
def truthy : Option String → Bool
  | none => false
  | some s => s != ""

/-- The expression `x || y` on values that are strings or `undefined`. -/
def jsOr (x y : Option String) : Option String :=
  if truthy x then x else y

/-- The expression `x || d` where `d` is a string literal, so the result is a string. -/
def jsOrStr (x : Option String) (d : String) : String :=
  match x with
  | none => d
  | some s => if s != "" then s else d

/-! ## State -/

/-- The field `state.data`. -/
structure Data where
  projects : List Record
  resources : List Record
  productivity : List Record
  master : List Record
  calculatorHistory : List Record
  deriving DecidableEq, Repr

/-- The field `state.filters`. -/
structure Filters where
  projectFilter : String
  resourceFilter : String
  minRate : String
  maxRate : String
  deriving DecidableEq, Repr

/-- The field `state.unsavedChanges`. -/
structure UnsavedChanges where
  projects : Bool
  resources : Bool
  productivity : Bool
  deriving DecidableEq, Repr

/-- The field `state` of `StateManager`. -/
structure State where
  currentTab : String
  data : Data
  filters : Filters
  unsavedChanges : UnsavedChanges
  deriving DecidableEq, Repr

/-- Names of the dirty flags, the first argument of `setUnsavedChanges`. -/
inductive Module where
  | projects
  | resources
  | productivity
  deriving DecidableEq, Repr

/-- The state built by the constructor. -/
def initialState : State :=
  { currentTab := "projects"
    data := { projects := [], resources := [], productivity := [], master := [],
              calculatorHistory := [] }
    filters := { projectFilter := "", resourceFilter := "", minRate := "", maxRate := "" }
    unsavedChanges := { projects := false, resources := false, productivity := false } }

/-! ## Master derivation -/

/-- The object literal pushed onto `master`. -/
def masterRow (project resource productivity rate description : String) : Record :=
  [("Project", project), ("Resource", resource), ("Productivity", productivity),
   ("Rate", rate), ("Description", description)]

/-- Body of the callback of `this.state.data.projects.forEach` in `updateMasterDatabase`:
the rows pushed for one project onto the `master` built so far. -/
def pushProjectRows (resources productivity : List Record) (master : List Record)
    (project : Record) : List Record :=
  match project.get "Project Name" with
  | none => master
  | some projectName =>
    if projectName = "" then master
    else
      let projectResources := resources.filter (fun resource =>
        let assignedProjects := jsOrStr (resource.get "Assigned Projects") ""
        ((jsSplit assignedProjects).map jsTrim).contains projectName)
      let productivityMappings := productivity.filter (fun p =>
        p.get "Project Name" == some projectName)
      if projectResources.length = 0 then
        productivityMappings.foldl (fun master prodMapping =>
          master ++ [masterRow projectName ""
            (jsOrStr (prodMapping.get "Productivity Value") "")
            (jsOrStr (prodMapping.get "Rate") "")
            (jsOrStr (project.get "Description") "")]) master
      else
        projectResources.foldl (fun master resource =>
          if productivityMappings.length = 0 then
            master ++ [masterRow projectName
              (jsOrStr (resource.get "Resource Name") "") "" ""
              (jsOrStr (jsOr (resource.get "Description") (project.get "Description")) "")]
          else
            productivityMappings.foldl (fun master prodMapping =>
              master ++ [masterRow projectName
                (jsOrStr (resource.get "Resource Name") "")
                (jsOrStr (prodMapping.get "Productivity Value") "")
                (jsOrStr (prodMapping.get "Rate") "")
                (jsOrStr (jsOr (resource.get "Description") (project.get "Description")) "")])
              master) master

/-- The array `master` built by `updateMasterDatabase` from the three collections. -/
def deriveMaster (projects resources productivity : List Record) : List Record :=
  projects.foldl (pushProjectRows resources productivity) []

/-- The method `updateMasterDatabase`. -/
def updateMasterDatabase (s : State) : State :=
  { s with data := { s.data with
      master := deriveMaster s.data.projects s.data.resources s.data.productivity } }

/-- The method `loadAllData`, given the five tables returned by `loadCSV`. -/
def loadAllData (s : State)
    (projects resources productivity master calculatorHistory : List Record) : State :=
  updateMasterDatabase
    { s with data := { projects := projects, resources := resources,
                       productivity := productivity, master := master,
                       calculatorHistory := calculatorHistory } }

/-! ## Dirty flags -/

/-- The method `setUnsavedChanges`. -/
def setUnsavedChanges (s : State) (module : Module) (hasChanges : Bool) : State :=
  match module with
  | Module.projects =>
    { s with unsavedChanges := { s.unsavedChanges with projects := hasChanges } }
  | Module.resources =>
    { s with unsavedChanges := { s.unsavedChanges with resources := hasChanges } }
  | Module.productivity =>
    { s with unsavedChanges := { s.unsavedChanges with productivity := hasChanges } }

/-- The method `hasUnsavedChanges`. -/
def hasUnsavedChanges (s : State) : Bool :=
  [s.unsavedChanges.projects, s.unsavedChanges.resources,
   s.unsavedChanges.productivity].any (fun changed => changed)

/-! ## Queries -/

/-- The method `getResourcesForProject`. -/
def getResourcesForProject (s : State) (projectName : String) : List Record :=
  s.data.resources.filter (fun resource =>
    let assignedProjects := jsOrStr (resource.get "Assigned Projects") ""
    ((jsSplit assignedProjects).map jsTrim).contains projectName)

/-- The method `getProductivityForProject`. -/
def getProductivityForProject (s : State) (projectName : String) : List Record :=
  s.data.productivity.filter (fun p => p.get "Project Name" == some projectName)

/-! ## Mutators -/

/-- The method `addProject`. -/
def addProject (s : State) (project : Record) : State :=
  setUnsavedChanges
    { s with data := { s.data with projects := s.data.projects ++ [project] } }
    Module.projects true

/-- The method `updateProject`. -/
def updateProject (s : State) (index : Int) (project : Record) : State :=
  if 0 ≤ index ∧ index < s.data.projects.length then
    setUnsavedChanges
      { s with data := { s.data with projects := s.data.projects.set index.toNat project } }
      Module.projects true
  else s

/-- The method `deleteProject`. The branch `none` of the element read is not reachable,
the index having been checked. -/
def deleteProject (s : State) (index : Int) : State :=
  if 0 ≤ index ∧ index < s.data.projects.length then
    match s.data.projects[index.toNat]? with
    | none => s
    | some project =>
      let projectName := project.get "Project Name"
      let projects := s.data.projects.eraseIdx index.toNat
      let resources := s.data.resources.map (fun resource =>
        let assignedProjects := jsOrStr (resource.get "Assigned Projects") ""
        let projects := (jsSplit assignedProjects).map jsTrim
        let filteredProjects := projects.filter (fun p => some p != projectName)
        resource.set "Assigned Projects" (jsJoin filteredProjects))
      let productivity := s.data.productivity.filter (fun p =>
        p.get "Project Name" != projectName)
      setUnsavedChanges
        (setUnsavedChanges
          (setUnsavedChanges
            { s with data := { s.data with
                projects := projects, resources := resources, productivity := productivity } }
            Module.projects true)
          Module.resources true)
        Module.productivity true
  else s

/-- The method `addResource`. -/
def addResource (s : State) (resource : Record) : State :=
  setUnsavedChanges
    { s with data := { s.data with resources := s.data.resources ++ [resource] } }
    Module.resources true

/-- The method `updateResource`. -/
def updateResource (s : State) (index : Int) (resource : Record) : State :=
  if 0 ≤ index ∧ index < s.data.resources.length then
    setUnsavedChanges
      { s with data := { s.data with resources := s.data.resources.set index.toNat resource } }
      Module.resources true
  else s

/-- The method `deleteResource`. -/
def deleteResource (s : State) (index : Int) : State :=
  if 0 ≤ index ∧ index < s.data.resources.length then
    setUnsavedChanges
      { s with data := { s.data with resources := s.data.resources.eraseIdx index.toNat } }
      Module.resources true
  else s

/-- The method `addProductivity`. -/
def addProductivity (s : State) (productivity : Record) : State :=
  setUnsavedChanges
    { s with data := { s.data with productivity := s.data.productivity ++ [productivity] } }
    Module.productivity true

/-- The method `updateProductivity`. -/
def updateProductivity (s : State) (index : Int) (productivity : Record) : State :=
  if 0 ≤ index ∧ index < s.data.productivity.length then
    setUnsavedChanges
      { s with data := { s.data with
          productivity := s.data.productivity.set index.toNat productivity } }
      Module.productivity true
  else s

/-- The method `deleteProductivity`. -/
def deleteProductivity (s : State) (index : Int) : State :=
  if 0 ≤ index ∧ index < s.data.productivity.length then
    setUnsavedChanges
      { s with data := { s.data with
          productivity := s.data.productivity.eraseIdx index.toNat } }
      Module.productivity true
  else s

/-- The method `addCalculatorEntry`. -/
def addCalculatorEntry (s : State) (entry : Record) : State :=
  { s with data := { s.data with calculatorHistory := s.data.calculatorHistory ++ [entry] } }

/-! ## CSV manager

`src/js/csvManager.js` talks to two collaborators that are not part of the repository's
renderer code: the bridge `window.electronAPI` (served by the main process) and the
library `Papa`. They are taken as parameters. `W` is the state of the outside world (the
data directory); a call that throws or reports `success: false` is a failed call. -/

/-- The collaborators of `CSVManager`. -/
structure Env (W : Type) where
  /-- The call `electronAPI.readCSVFile(filename)`: the text when `result.success`. -/
  readCSVFile : String → W → Option String
  /-- The call `electronAPI.writeCSVFile(filename, csv)`: `result.success`, and the
  world after the call. -/
  writeCSVFile : String → String → W → Bool × W
  /-- The rows `results.data` of `Papa.parse(text, {header: true, skipEmptyLines: true})`. -/
  parse : String → List Record
  /-- The text `Papa.unparse(data, {header: true, skipEmptyLines: true})`. -/
  unparse : List Record → String

/-- The method `CSVManager.loadCSV`: a failed read yields the empty array. -/
def loadCSV {W : Type} (env : Env W) (filename : String) (w : W) : List Record :=
  match env.readCSVFile filename w with
  | none => []
  | some data => env.parse data

/-- The method `CSVManager.saveCSV`. -/
def saveCSV {W : Type} (env : Env W) (filename : String) (data : List Record) (w : W) :
    Bool × W :=
  let csv := env.unparse data
  env.writeCSVFile filename csv w

/-- The method `CSVManager.mergeCSV`. The set `existingKeys` is kept as the list of its
values; `Set.prototype.has` is membership. -/
def mergeCSV {W : Type} (env : Env W) (filename : String) (newRows : List Record)
    (uniqueKey : String) (w : W) : Bool × W :=
  let existingData := loadCSV env filename w
  let existingKeys := existingData.map (fun row => row.get uniqueKey)
  let uniqueNewRows := newRows.filter (fun row =>
    truthy (row.get uniqueKey) && !existingKeys.contains (row.get uniqueKey))
  if uniqueNewRows.length = 0 then (true, w)
  else
    let mergedData := existingData ++ uniqueNewRows
    saveCSV env filename mergedData w

/-! ## Saving

Each save method returns its result, the state and the world after the call. -/

/-- The method `saveProjects`. -/
def saveProjects {W : Type} (env : Env W) (s : State) (w : W) : Bool × State × W :=
  let r := saveCSV env "projects.csv" s.data.projects w
  let success := r.1
  if success then (success, setUnsavedChanges s Module.projects false, r.2)
  else (success, s, r.2)

/-- The method `saveResources`. -/
def saveResources {W : Type} (env : Env W) (s : State) (w : W) : Bool × State × W :=
  let r := saveCSV env "resources.csv" s.data.resources w
  let success := r.1
  if success then (success, setUnsavedChanges s Module.resources false, r.2)
  else (success, s, r.2)

/-- The method `saveProductivity`: on success the master is recomputed and written too,
the result of that second write being ignored. -/
def saveProductivity {W : Type} (env : Env W) (s : State) (w : W) : Bool × State × W :=
  let r := saveCSV env "productivity.csv" s.data.productivity w
  let success := r.1
  if success then
    let s1 := updateMasterDatabase (setUnsavedChanges s Module.productivity false)
    let r2 := saveCSV env "master.csv" s1.data.master r.2
    (success, s1, r2.2)
  else (success, s, r.2)

/-- The method `saveCalculatorHistory`. -/
def saveCalculatorHistory {W : Type} (env : Env W) (s : State) (w : W) : Bool × State × W :=
  let r := saveCSV env "calculator_history.csv" s.data.calculatorHistory w
  (r.1, s, r.2)

/-- The method `saveMaster`: the master is recomputed before it is written. -/
def saveMaster {W : Type} (env : Env W) (s : State) (w : W) : Bool × State × W :=
  let s1 := updateMasterDatabase s
  let r := saveCSV env "master.csv" s1.data.master w
  (r.1, s1, r.2)

/-! ## User interface handlers of the projects table

The two places of `src/js/uiManager.js` that change a project's name. -/

/-- The submit handler of the add-project form (`showAddProjectModal`), given the values
of the inputs `projectName` and `projectDescription`. -/
def submitAddProject (s : State) (projectName projectDescription : String) : State :=
  let name := jsTrim projectName
  let description := jsTrim projectDescription
  if !truthy (some name) then s
  else
    match (s.data.projects.find? (fun p => p.get "Project Name" == some name)) with
    | some _ => s
    | none => addProject s [("Project Name", name), ("Description", description)]

/-- The change handler of an input of the projects table (`renderProjectsTable`), given
the attributes `data-index` and `data-field` of the input and its value. The copy
`{ ...projects[index] }` of a missing element is the empty object. -/
def editProjectField (s : State) (index : Int) (field value : String) : State :=
  let project : Record :=
    if 0 ≤ index then (s.data.projects[index.toNat]?).getD [] else []
  updateProject s index (project.set field value)

/-! ## Main process

The two handlers of `src/main.js` that serve `electronAPI.readCSVFile` and
`electronAPI.writeCSVFile`. Paths are relative to `process.cwd()`. A read that throws
returns `none`; a write or copy returns whether it returned normally, together with the
file system it leaves, which after a throw may hold a partly written file. -/

/-- The file system as the main process sees it: the files with their text, the value of
`Date.now()`, the paths at which `writeFileSync` and `copyFileSync` throw, and, for such a
path, the text that the failed write leaves in the file when it fails part-way (no entry:
the failed write leaves the files as they were). -/
structure FileSystem where
  files : List (String × String)
  now : Nat
  unwritable : List String
  torn : List (String × String)
  deriving DecidableEq, Repr

/-- Store `data` under `path`: an existing file is replaced, a new one is added. -/
def putFile : List (String × String) → String → String → List (String × String)
  | [], path, data => [(path, data)]
  | (p, d) :: files, path, data =>
    if p = path then (path, data) :: files else (p, d) :: putFile files path data

/-- The call `fs.readFileSync(path, 'utf8')`; it throws when the file does not exist. -/
def FileSystem.readFileSync (fs : FileSystem) (path : String) : Option String :=
  fs.files.lookup path

/-- The call `fs.existsSync(path)`. -/
def FileSystem.existsSync (fs : FileSystem) (path : String) : Bool :=
  (fs.files.lookup path).isSome

/-- The file system left by a write at `path` that throws: as it was, or with the partly
written text in the file. -/
def FileSystem.afterFailedWrite (fs : FileSystem) (path : String) : FileSystem :=
  match fs.torn.lookup path with
  | none => fs
  | some left => { fs with files := putFile fs.files path left }

/-- The call `fs.writeFileSync(path, data, 'utf8')`: `false` when it throws. -/
def FileSystem.writeFileSync (fs : FileSystem) (path data : String) : Bool × FileSystem :=
  if fs.unwritable.contains path then (false, fs.afterFailedWrite path)
  else (true, { fs with files := putFile fs.files path data })

/-- The call `fs.copyFileSync(src, dest)`: `false` when it throws. -/
def FileSystem.copyFileSync (fs : FileSystem) (src dest : String) : Bool × FileSystem :=
  match fs.readFileSync src with
  | none => (false, fs)
  | some content => fs.writeFileSync dest content

/-- The path `path.join(process.cwd(), 'data', filename)`. -/
def livePath (filename : String) : String :=
  "data/" ++ filename

/-- The path `path.join(process.cwd(), 'data', 'backup', Date.now() + '_' + filename)`. -/
def backupPathAt (now : Nat) (filename : String) : String :=
  "data/backup/" ++ toString now ++ "_" ++ filename

/-- The handler of `read-csv-file`: the text when `success`, `none` otherwise. -/
def readCsvFileHandler (fs : FileSystem) (filename : String) : Option String :=
  let filePath := livePath filename
  fs.readFileSync filePath

/-- The handler of `write-csv-file`: the field `success` and the file system after the
call. -/
def writeCsvFileHandler (fs : FileSystem) (filename data : String) : Bool × FileSystem :=
  let filePath := livePath filename
  let backupPath := backupPathAt fs.now filename
  let copied :=
    if fs.existsSync filePath then fs.copyFileSync filePath backupPath else (true, fs)
  if copied.1 then copied.2.writeFileSync filePath data
  else (false, copied.2)

/-- The collaborators of `CSVManager` when the bridge is served by the main process, for
given `Papa` functions. -/
def mainEnv (parse : String → List Record) (unparse : List Record → String) :
    Env FileSystem :=
  { readCSVFile := fun filename fs => readCsvFileHandler fs filename
    writeCSVFile := fun filename csv fs => writeCsvFileHandler fs filename csv
    parse := parse
    unparse := unparse }

/-! ## Bulk upload

`CSVManager.validateCSVData` and the bulk upload of `src/js/uiManager.js`. -/

/-- The object returned by `validateCSVData`. -/
structure ValidationResult where
  valid : Bool
  errors : List String
  warnings : List String
  deriving DecidableEq, Repr

/-- The warnings pushed by `validateCSVData` for the rows from position `index` on. -/
def emptyValueWarnings (requiredFields : List String) : Nat → List Record → List String
  | _, [] => []
  | index, row :: rows =>
    (requiredFields.filter (fun field =>
        !truthy (row.get field) || jsTrim ((row.get field).getD "") == "")).map
      (fun field =>
        "Row " ++ toString (index + 1) ++ ": Empty value for required field '" ++ field ++
          "'") ++
    emptyValueWarnings requiredFields (index + 1) rows

/-- The method `CSVManager.validateCSVData`. -/
def validateCSVData (data : List Record) (requiredFields : List String) : ValidationResult :=
  match data with
  | [] => { valid := false, errors := ["No data provided"], warnings := [] }
  | firstRow :: _ =>
    let missingFields := requiredFields.filter (fun field => !(firstRow.get field).isSome)
    let errors :=
      if missingFields.length > 0 then ["Missing required fields: " ++ jsJoin missingFields]
      else []
    let warnings := emptyValueWarnings requiredFields 0 data
    { valid := errors.length == 0, errors := errors, warnings := warnings }

/-- The table `requiredFields` of `validateBulkUploadData`, with `|| []`. -/
def requiredFieldsOf (module : String) : List String :=
  if module = "projects" then ["Project Name"]
  else if module = "resources" then ["Resource Name"]
  else if module = "productivity" then ["Project Name", "Productivity Value", "Rate"]
  else []

/-- The method `UIManager.validateBulkUploadData`. -/
def validateBulkUploadData (data : List Record) (module : String) : ValidationResult :=
  let fields := requiredFieldsOf module
  validateCSVData data fields

/-- The method `UIManager.processBulkUpload`. -/
def processBulkUpload {W : Type} (env : Env W) (s : State) (data : List Record)
    (module : String) (w : W) : Bool × W :=
  if module = "projects" then mergeCSV env "projects.csv" data "Project Name" w
  else if module = "resources" then mergeCSV env "resources.csv" data "Resource Name" w
  else if module = "productivity" then
    let validData := data.filter (fun row =>
      (s.data.projects.find? (fun p => p.get "Project Name" == row.get "Project Name")).isSome)
    mergeCSV env "productivity.csv" validData "Project Name,Productivity Value" w
  else (false, w)

/-- The bulk upload dialog (`showBulkUploadModal`): the preview validates the parsed file
and enables the upload only when the validation is `valid`; the upload then runs
`processBulkUpload`. `none` when the upload is not enabled. -/
def bulkUpload {W : Type} (env : Env W) (s : State) (data : List Record) (module : String)
    (w : W) : Option (Bool × W) :=
  let validation := validateBulkUploadData data module
  if validation.valid then some (processBulkUpload env s data module w)
  else none

/-! ## CSV text format

The library `Papa` is not part of the sources. The text format it reads and writes is
modelled here from section 4.4 of the specification: a header line, then one line per
record with the values in header order, CSV-escaped; on reading, the first line is the
header and every further non-empty line becomes one record. -/

/-- Modelled from the spec: the double quote of "CSV-escaped" fields; the writer and
reader of the text format (library `Papa`) are not part of the sources. -/
def csvQuote : Char := Char.ofNat 34

/-- Modelled from the spec: the character that ends a line of the text format ("header
line + one line per record"); the library `Papa` is not part of the sources. -/
def csvNewline : Char := Char.ofNat 10

/-- Modelled from the spec: whether a field must be quoted ("CSV-escaped"): it holds a
comma, a double quote or a line terminator. The library that decides it is not part of
the sources. -/
def needsQuotes (field : List Char) : Bool :=
  field.any (fun c => c == ',' || c == csvQuote || c == csvNewline)

/-- Modelled from the spec: the body of a quoted field, every double quote doubled
("CSV-escaped"); the library `Papa` that writes it is not part of the sources. -/
def doubleQuotes : List Char → List Char
  | [] => []
  | c :: cs =>
    if c = csvQuote then csvQuote :: csvQuote :: doubleQuotes cs else c :: doubleQuotes cs

/-- Modelled from the spec: one field as written ("CSV-escaped"), quoted when
`needsQuotes`; the library `Papa` that writes it is not part of the sources. -/
def escapeField (field : List Char) : List Char :=
  if needsQuotes field then csvQuote :: (doubleQuotes field ++ [csvQuote]) else field

/-- Modelled from the spec: one line, the escaped fields separated by commas; the
library `Papa` that writes it is not part of the sources. -/
def csvLine (fields : List (List Char)) : List Char :=
  joinChars [','] (fields.map escapeField)

/-- Modelled from the spec: the text of a table, "header line + one line per record";
the library `Papa` that writes it is not part of the sources. -/
def csvText (rows : List (List (List Char))) : List Char :=
  joinChars [csvNewline] (rows.map csvLine)

/-- Modelled from the spec: a step of the reader of the text format (library `Papa`, not
part of the sources): put a character in front of the first field of the first row. -/
def pushChar (c : Char) : List (List (List Char)) → List (List (List Char))
  | [] => [[[c]]]
  | [] :: rows => [[c]] :: rows
  | (f :: fs) :: rows => ((c :: f) :: fs) :: rows

/-- Modelled from the spec: a step of the reader of the text format (library `Papa`, not
part of the sources): start a new, empty field in front of the first row. -/
def pushField : List (List (List Char)) → List (List (List Char))
  | [] => [[[], []]]
  | row :: rows => ([] :: row) :: rows

/-- Modelled from the spec: where the reader of the text format (library `Papa`, not part
of the sources) stands: outside quotes, inside a quoted field, or just after a double
quote met inside a quoted field. -/
inductive ScanMode where
  | plain
  | quoted
  | afterQuote
  deriving DecidableEq, Repr

/-- Modelled from the spec: the rows of fields of a text ("CSV-escaped" fields separated
by commas, one line per row), as the library `Papa`, not part of the sources, reads them.
Inside a quoted field a doubled double quote is a double
quote and a single one ends the quoted part. The last row is the one after the last line
terminator. -/
def scanCsv : ScanMode → List Char → List (List (List Char))
  | _, [] => [[[]]]
  | ScanMode.plain, c :: cs =>
    if c = csvQuote then scanCsv ScanMode.quoted cs
    else if c = ',' then pushField (scanCsv ScanMode.plain cs)
    else if c = csvNewline then [[]] :: scanCsv ScanMode.plain cs
    else pushChar c (scanCsv ScanMode.plain cs)
  | ScanMode.quoted, c :: cs =>
    if c = csvQuote then scanCsv ScanMode.afterQuote cs
    else pushChar c (scanCsv ScanMode.quoted cs)
  | ScanMode.afterQuote, c :: cs =>
    if c = csvQuote then pushChar csvQuote (scanCsv ScanMode.quoted cs)
    else if c = ',' then pushField (scanCsv ScanMode.plain cs)
    else if c = csvNewline then [[]] :: scanCsv ScanMode.plain cs
    else pushChar c (scanCsv ScanMode.plain cs)

/-- Modelled from the spec: `Papa.unparse`, from a library that is not part of the
sources: "header line + one line per record, fields
consistently ordered, CSV-escaped": the header holds the field names of the first record,
and every record gives its values in header order, an absent value being empty. -/
def specUnparse (records : List Record) : String :=
  match records with
  | [] => ""
  | first :: _ =>
    String.mk (csvText
      (first.map (fun kv => kv.1.data) ::
        records.map (fun r => first.map (fun kv => ((r.get kv.1).getD "").data))))

/-- Modelled from the spec: `Papa.parse`, from a library that is not part of the sources:
"parses the first line as a header defining
field names; each subsequent non-empty line becomes one record with string-typed values
in header order". -/
def specParse (text : String) : List Record :=
  match (scanCsv ScanMode.plain text.data).filter (fun row => decide (row ≠ [[]])) with
  | [] => []
  | header :: lines =>
    lines.map (fun line => (header.map String.mk).zip (line.map String.mk))

/-- The collaborators of `CSVManager` with the bridge served by the main process and the
text format of the specification. -/
def specEnv : Env FileSystem :=
  mainEnv specParse specUnparse

/-! ## Example states -/

/-- Project `A`, resource `R1` assigned to it, two mappings for it. -/
def exJoin : State :=
  { initialState with data := { initialState.data with
      projects := [[("Project Name", "A")]]
      resources := [[("Resource Name", "R1"), ("Assigned Projects", "A")]]
      productivity :=
        [[("Project Name", "A"), ("Productivity Value", "1"), ("Rate", "10")],
         [("Project Name", "A"), ("Productivity Value", "2"), ("Rate", "20")]] } }

/-- Project `B` with one mapping and no resource. -/
def exNoResource : State :=
  { initialState with data := { initialState.data with
      projects := [[("Project Name", "B")]]
      productivity := [[("Project Name", "B"), ("Productivity Value", "1"), ("Rate", "5")]] } }

/-- Project `C` with resource `R2` and no mapping. -/
def exNoMapping : State :=
  { initialState with data := { initialState.data with
      projects := [[("Project Name", "C")]]
      resources := [[("Resource Name", "R2"), ("Assigned Projects", "C")]] } }

/-- Projects `A` and `B`; `R1` assigned to both, `R2` to `A` only; mappings for both. -/
def exTwoProjects : State :=
  { initialState with data := { initialState.data with
      projects := [[("Project Name", "A")], [("Project Name", "B")]]
      resources := [[("Resource Name", "R1"), ("Assigned Projects", "A, B")],
                    [("Resource Name", "R2"), ("Assigned Projects", "A")]]
      productivity :=
        [[("Project Name", "A"), ("Productivity Value", "1"), ("Rate", "10")],
         [("Project Name", "B"), ("Productivity Value", "1"), ("Rate", "5")],
         [("Project Name", "A"), ("Productivity Value", "2"), ("Rate", "20")]] } }

/-- Two project records named `A`, a resource assigned to `A` and a mapping for `A`. -/
def exDuplicate : State :=
  { initialState with data := { initialState.data with
      projects := [[("Project Name", "A"), ("Description", "first")], [("Project Name", "A")]]
      resources := [[("Resource Name", "R1"), ("Assigned Projects", "A")]]
      productivity := [[("Project Name", "A"), ("Productivity Value", "1"), ("Rate", "10")]] } }

/-- One project and nothing else: no resource, no mapping. -/
def exOnlyProject : State :=
  { initialState with data := { initialState.data with
      projects := [[("Project Name", "P")]] } }

/-- A project whose name is the empty string and a resource assigned to no project. -/
def exEmptyName : State :=
  { initialState with data := { initialState.data with
      projects := [[("Project Name", "")]]
      resources := [[("Resource Name", "R1"), ("Assigned Projects", "")]] } }

/-- A data directory for the examples: file names with their text. -/
abbrev ExDisk := List (String × String)

/-- A comma codec without quoting, for the examples: the header line holds the field
names of the first record, every further line the values of one record. -/
def plainUnparse (data : List Record) : String :=
  match data with
  | [] => ""
  | r :: _ =>
    String.mk (joinChars [Char.ofNat 10]
      (joinChars [','] (r.map (fun kv => kv.1.data)) ::
        data.map (fun row => joinChars [','] (row.map (fun kv => kv.2.data)))))

/-- The reader of the comma codec of the examples; empty lines are skipped. -/
def plainParse (text : String) : List Record :=
  match (splitChars (Char.ofNat 10) text.data).filter (fun l => !l.isEmpty) with
  | [] => []
  | header :: lines =>
    lines.map (fun line =>
      ((splitChars ',' header).map String.mk).zip ((splitChars ',' line).map String.mk))

/-- An environment for the examples: a read returns the text stored under the name, a
write stores the text when `ok` and otherwise fails, leaving the directory as it was. -/
def exEnv (ok : Bool) : Env ExDisk :=
  { readCSVFile := fun filename w => w.lookup filename
    writeCSVFile := fun filename csv w =>
      if ok then (true, (filename, csv) :: w.filter (fun e => e.1 != filename))
      else (false, w)
    parse := plainParse
    unparse := plainUnparse }

/-- A data directory whose `projects.csv` holds the projects `A` and `B`. -/
def exDisk : ExDisk :=
  [("projects.csv", "Project Name,Description\nA,first\nB,second\n")]

/-- The join example with all three collections marked dirty. -/
def exDirty : State :=
  { exJoin with unsavedChanges := { projects := true, resources := true, productivity := true } }

/-- No two project records have the same `Project Name`. -/
def uniqueProjectNames (s : State) : Prop :=
  (s.data.projects.map (fun p => p.get "Project Name")).Nodup

instance (s : State) : Decidable (uniqueProjectNames s) := by
  unfold uniqueProjectNames
  infer_instance

/-- A file system whose `data/projects.csv` holds the projects `A` and `B`, at time `17`. -/
def exFs : FileSystem :=
  { files := [("data/projects.csv", "Project Name,Description\nA,first\nB,second\n")]
    now := 17
    unwritable := []
    torn := [] }

/-- A file system whose `data/projects.csv` holds the header line only, at time `17`. -/
def exFsEmpty : FileSystem :=
  { files := [("data/projects.csv", "Project Name,Description\n")]
    now := 17
    unwritable := []
    torn := [] }

/-- A file system whose `data/projects.csv` has the columns `Name` and `Description`, so
none named `Project Name`, and holds one record. -/
def exFsNoKeyColumn : FileSystem :=
  { files := [("data/projects.csv", "Name,Description\nx,d")]
    now := 17
    unwritable := []
    torn := [] }

/-- A file system without tables in which `data/master.csv` cannot be written. -/
def exFsMasterLocked : FileSystem :=
  { files := [], now := 17, unwritable := ["data/master.csv"], torn := [] }

/-- A file system whose `data/projects.csv` holds the projects `A` and `B` and in which
the write of that file fails part-way, leaving it empty. -/
def exFsTorn : FileSystem :=
  { files := [("data/projects.csv", "Project Name,Description\nA,first\nB,second\n")]
    now := 17
    unwritable := ["data/projects.csv"]
    torn := [("data/projects.csv", "")] }

/-- The key values of a table for the key field `k`. -/
def keyValues (table : List Record) (k : String) : List (Option String) :=
  table.map (fun row => row.get k)

/-! ## Vocabulary of the statements

The definitions of this section follow the words of the specification (section 4.2), not
the source: they name the resources and mappings of a project and the rows the
specification expects for it. `pushProjectRows_eq` compares them with the embedding of
the source. -/

/-- Value of field `k` of `r`, the empty string when the field is absent. -/
def fieldOrEmpty (r : Record) (k : String) : String :=
  (r.get k).getD ""

/-- The names assigned to a resource: its `Assigned Projects` split at commas, each
token trimmed. -/
def assignedNames (resource : Record) : List String :=
  (jsSplit (fieldOrEmpty resource "Assigned Projects")).map jsTrim

/-- The resources assigned to the project named `n`, in collection order. -/
def resourcesOf (resources : List Record) (n : String) : List Record :=
  resources.filter (fun r => decide (n ∈ assignedNames r))

/-- The mappings of the project named `n`, in collection order. -/
def mappingsOf (productivity : List Record) (n : String) : List Record :=
  productivity.filter (fun m => decide (m.get "Project Name" = some n))

/-- Description of a row joining resource `r` and project `p`. -/
def rowDescription (r p : Record) : String :=
  if fieldOrEmpty r "Description" ≠ "" then fieldOrEmpty r "Description"
  else fieldOrEmpty p "Description"

/-- The rows the specification expects for one project, by its four cases. -/
def projectRows (resources productivity : List Record) (project : Record) : List Record :=
  match project.get "Project Name" with
  | none => []
  | some n =>
    if n = "" then []
    else if resourcesOf resources n = [] then
      (mappingsOf productivity n).map (fun m =>
        masterRow n "" (fieldOrEmpty m "Productivity Value") (fieldOrEmpty m "Rate")
          (fieldOrEmpty project "Description"))
    else if mappingsOf productivity n = [] then
      (resourcesOf resources n).map (fun r =>
        masterRow n (fieldOrEmpty r "Resource Name") "" "" (rowDescription r project))
    else
      (resourcesOf resources n).flatMap (fun r =>
        (mappingsOf productivity n).map (fun m =>
          masterRow n (fieldOrEmpty r "Resource Name") (fieldOrEmpty m "Productivity Value")
            (fieldOrEmpty m "Rate") (rowDescription r project)))

/-- The block of a project named `n` as the specification builds it from the resources
and mappings selected for it: one row per mapping when there is no resource, one row per
resource when there is no mapping, and otherwise the rows of the first resource in
mapping order, then those of the second resource, and so on. -/
def blockOf (projectResources productivityMappings : List Record) (n : String)
    (project : Record) : List Record :=
  if projectResources = [] then
    productivityMappings.map (fun m =>
      masterRow n "" (fieldOrEmpty m "Productivity Value") (fieldOrEmpty m "Rate")
        (fieldOrEmpty project "Description"))
  else if productivityMappings = [] then
    projectResources.map (fun r =>
      masterRow n (fieldOrEmpty r "Resource Name") "" "" (rowDescription r project))
  else
    projectResources.flatMap (fun r =>
      productivityMappings.map (fun m =>
        masterRow n (fieldOrEmpty r "Resource Name") (fieldOrEmpty m "Productivity Value")
          (fieldOrEmpty m "Rate") (rowDescription r project)))

/-- The incoming records that `mergeCSV` keeps, in the words of the specification: the key
value is non-empty and is not the key value of an existing record. -/
def survivorsOf (existing incoming : List Record) (k : String) : List Record :=
  incoming.filter (fun r =>
    decide (fieldOrEmpty r k ≠ "" ∧ ∀ e ∈ existing, e.get k ≠ r.get k))

/-! ## Auxiliary lemmas -/

theorem jsOrStr_empty (x : Option String) : jsOrStr x "" = x.getD "" := by
  cases x with
  | none => rfl
  | some v =>
    by_cases h : v = ""
    · simp [jsOrStr, h]
    · simp [jsOrStr, h]

theorem jsOr_getD (x y : Option String) :
    (jsOr x y).getD "" = if x.getD "" ≠ "" then x.getD "" else y.getD "" := by
  cases x with
  | none => simp [jsOr, truthy]
  | some v =>
    by_cases h : v = ""
    · simp [jsOr, truthy, h]
    · simp [jsOr, truthy, h]

theorem foldl_push_map {α β : Type} (f : α → β) (l : List α) (acc : List β) :
    l.foldl (fun m a => m ++ [f a]) acc = acc ++ l.map f := by
  induction l generalizing acc with
  | nil => simp
  | cons a l ih => simp [ih]

theorem foldl_append_flatMap {α β : Type} (g : α → List β) (l : List α) (acc : List β) :
    l.foldl (fun m a => m ++ g a) acc = acc ++ l.flatMap g := by
  induction l generalizing acc with
  | nil => simp
  | cons a l ih => simp [ih]

theorem pushProjectRows_eq (resources productivity master : List Record) (project : Record) :
    pushProjectRows resources productivity master project =
      master ++ projectRows resources productivity project := by
  unfold pushProjectRows projectRows
  cases hname : project.get "Project Name" with
  | none => simp
  | some n =>
    by_cases hn : n = ""
    · simp [hn]
    · have hres : (resources.filter (fun resource =>
          ((jsSplit (jsOrStr (resource.get "Assigned Projects") "")).map jsTrim).contains n))
          = resourcesOf resources n := by
        unfold resourcesOf assignedNames fieldOrEmpty
        congr 1
        funext r
        simp [jsOrStr_empty]
      have hmap : (productivity.filter (fun p => p.get "Project Name" == some n))
          = mappingsOf productivity n := by
        unfold mappingsOf
        congr 1
        funext m
        by_cases h : m.get "Project Name" = some n <;> simp [h]
      simp only [hn, if_false, hres, hmap, List.length_eq_zero]
      by_cases h1 : resourcesOf resources n = []
      · simp [h1, foldl_push_map, jsOrStr_empty, fieldOrEmpty]
      · by_cases h2 : mappingsOf productivity n = []
        · simp only [h1, h2, if_false, if_true]
          rw [foldl_push_map]
          simp [jsOrStr_empty, jsOr_getD, fieldOrEmpty, rowDescription]
        · simp only [h1, h2, if_false]
          simp only [foldl_push_map]
          rw [foldl_append_flatMap]
          simp [jsOrStr_empty, jsOr_getD, fieldOrEmpty, rowDescription]

theorem deriveMaster_eq_flatMap (projects resources productivity : List Record) :
    deriveMaster projects resources productivity =
      projects.flatMap (projectRows resources productivity) := by
  unfold deriveMaster
  have h : pushProjectRows resources productivity =
      fun m p => m ++ projectRows resources productivity p := by
    funext m p
    exact pushProjectRows_eq resources productivity m p
  rw [h, foldl_append_flatMap]
  simp

theorem deriveMaster_split (pre post resources productivity : List Record) (p : Record) :
    deriveMaster (pre ++ p :: post) resources productivity =
      deriveMaster pre resources productivity ++ projectRows resources productivity p ++
        deriveMaster post resources productivity := by
  simp [deriveMaster_eq_flatMap]

/-! ## Splitting, trimming and joining -/

theorem splitChars_ne_nil (sep : Char) (l : List Char) : splitChars sep l ≠ [] := by
  induction l with
  | nil => simp [splitChars]
  | cons c cs ih =>
    unfold splitChars
    by_cases h : c = sep
    · simp [h]
    · simp only [h, if_false]
      cases hs : splitChars sep cs with
      | nil => simp
      | cons t ts => simp

theorem splitChars_cons_ne (sep c : Char) (cs t : List Char) (ts : List (List Char))
    (hc : c ≠ sep) (hs : splitChars sep cs = t :: ts) :
    splitChars sep (c :: cs) = (c :: t) :: ts := by
  rw [splitChars]
  simp [hc, hs]

theorem splitChars_no_sep (sep : Char) (l : List Char) :
    ∀ t ∈ splitChars sep l, sep ∉ t := by
  induction l with
  | nil => simp [splitChars]
  | cons c cs ih =>
    intro t ht
    by_cases h : c = sep
    · rw [splitChars, if_pos h] at ht
      rcases List.mem_cons.mp ht with rfl | ht
      · simp
      · exact ih t ht
    · obtain ⟨u, us, hu⟩ := List.exists_cons_of_ne_nil (splitChars_ne_nil sep cs)
      rw [splitChars_cons_ne sep c cs u us h hu] at ht
      rw [hu] at ih
      rcases List.mem_cons.mp ht with rfl | ht
      · intro hmem
        rcases List.mem_cons.mp hmem with heq | hmem
        · exact h heq.symm
        · exact ih u (List.mem_cons_self _ _) hmem
      · exact ih t (List.mem_cons_of_mem _ ht)

theorem splitChars_of_not_mem (sep : Char) (t : List Char) (ht : sep ∉ t) :
    splitChars sep t = [t] := by
  induction t with
  | nil => rfl
  | cons c cs ih =>
    have hc : c ≠ sep := fun h => ht (by simp [h])
    have hcs : sep ∉ cs := fun h => ht (List.mem_cons_of_mem _ h)
    exact splitChars_cons_ne sep c cs cs [] hc (ih hcs)

theorem splitChars_append_sep (sep : Char) (t rest : List Char) (ht : sep ∉ t) :
    splitChars sep (t ++ sep :: rest) = t :: splitChars sep rest := by
  induction t with
  | nil => simp [splitChars]
  | cons c cs ih =>
    have hc : c ≠ sep := fun h => ht (by simp [h])
    have hcs : sep ∉ cs := fun h => ht (List.mem_cons_of_mem _ h)
    exact splitChars_cons_ne sep c _ cs _ hc (ih hcs)

theorem splitChars_joinChars (t : List Char) (ts : List (List Char))
    (h : ∀ u ∈ t :: ts, ',' ∉ u) :
    splitChars ',' (joinChars [',', Char.ofNat 32] (t :: ts)) =
      t :: ts.map (fun u => Char.ofNat 32 :: u) := by
  induction ts generalizing t with
  | nil =>
    simpa [joinChars] using splitChars_of_not_mem ',' t (h t (List.mem_cons_self _ _))
  | cons u us ih =>
    have ht : ',' ∉ t := h t (List.mem_cons_self _ _)
    have hrest : ∀ v ∈ u :: us, ',' ∉ v := fun v hv => h v (List.mem_cons_of_mem _ hv)
    have hjoin : joinChars [',', Char.ofNat 32] (t :: u :: us) =
        t ++ ',' :: (Char.ofNat 32 :: joinChars [',', Char.ofNat 32] (u :: us)) := by
      simp [joinChars]
    rw [hjoin, splitChars_append_sep ',' t _ ht,
      splitChars_cons_ne ',' (Char.ofNat 32) _ u (us.map (fun v => Char.ofNat 32 :: v))
        (by decide) (ih u hrest)]
    simp

theorem trimChars_cons_space (l : List Char) :
    trimChars (Char.ofNat 32 :: l) = trimChars l := by
  have h : isJsWhitespace (Char.ofNat 32) = true := by decide
  simp [trimChars, h]

theorem dropWhile_eq_self_of_head {p : Char → Bool} (a : Char) (l : List Char)
    (h : (a :: l).dropWhile p = a :: l) : p a = false := by
  by_contra hp
  have hp : p a = true := by simpa using hp
  rw [List.dropWhile_cons_of_pos hp] at h
  have hlen := (List.dropWhile_sublist (l := l) p).length_le
  rw [h] at hlen
  simp at hlen

theorem dropWhile_reverse_dropWhile {p : Char → Bool} (m : List Char)
    (hm : m.dropWhile p = m) :
    ((m.reverse.dropWhile p).reverse).dropWhile p = (m.reverse.dropWhile p).reverse := by
  cases m with
  | nil => simp
  | cons a m =>
    have ha : p a = false := dropWhile_eq_self_of_head a m hm
    have hsplit : (((a :: m).reverse.dropWhile p).reverse) ++
        ((a :: m).reverse.takeWhile p).reverse = a :: m := by
      rw [← List.reverse_append, List.takeWhile_append_dropWhile, List.reverse_reverse]
    cases hR : ((a :: m).reverse.dropWhile p).reverse with
    | nil => simp
    | cons b R =>
      rw [hR] at hsplit
      have hb : b = a := by
        simp at hsplit
        exact hsplit.1
      subst hb
      simp [ha]

theorem trimChars_idempotent (l : List Char) : trimChars (trimChars l) = trimChars l := by
  unfold trimChars
  rw [dropWhile_reverse_dropWhile _ (List.dropWhile_idempotent isJsWhitespace l),
    List.reverse_reverse, List.dropWhile_idempotent]

theorem not_mem_trimChars (c : Char) (l : List Char) (h : c ∉ l) : c ∉ trimChars l := by
  intro hc
  unfold trimChars at hc
  rw [List.mem_reverse] at hc
  have h1 := (List.dropWhile_sublist isJsWhitespace).subset hc
  rw [List.mem_reverse] at h1
  exact h ((List.dropWhile_sublist isJsWhitespace).subset h1)

theorem tokens_wellformed (x : String) :
    ∀ t ∈ (jsSplit x).map jsTrim, ',' ∉ t.data ∧ trimChars t.data = t.data := by
  intro t ht
  simp only [jsSplit, List.map_map, List.mem_map, Function.comp] at ht
  obtain ⟨u, hu, rfl⟩ := ht
  exact ⟨not_mem_trimChars ',' u (splitChars_no_sep ',' x.data u hu), trimChars_idempotent u⟩

theorem tokens_jsJoin (ts : List String) (hne : ts ≠ [])
    (h : ∀ t ∈ ts, ',' ∉ t.data ∧ trimChars t.data = t.data) :
    (jsSplit (jsJoin ts)).map jsTrim = ts := by
  obtain ⟨t, us, rfl⟩ := List.exists_cons_of_ne_nil hne
  have hsep : ∀ u ∈ t.data :: us.map String.data, ',' ∉ u := by
    intro u hu
    rcases List.mem_cons.mp hu with rfl | hu
    · exact (h t (List.mem_cons_self _ _)).1
    · obtain ⟨v, hv, rfl⟩ := List.mem_map.mp hu
      exact (h v (List.mem_cons_of_mem _ hv)).1
  have ht : trimChars t.data = t.data := (h t (List.mem_cons_self _ _)).2
  simp only [jsSplit, jsJoin, List.map_cons, splitChars_joinChars _ _ hsep, List.map_map,
    jsTrim, ht]
  congr 1
  conv_rhs => rw [← List.map_id us]
  apply List.map_congr_left
  intro v hv
  simp only [Function.comp, jsTrim, trimChars_cons_space, (h v (List.mem_cons_of_mem _ hv)).2,
    id]

theorem tokens_after_removal (x : String) (q : Option String) :
    (jsSplit (jsJoin (((jsSplit x).map jsTrim).filter (fun p => some p != q)))).map jsTrim =
      if ((jsSplit x).map jsTrim).filter (fun p => some p != q) = [] then [""]
      else ((jsSplit x).map jsTrim).filter (fun p => some p != q) := by
  by_cases hnil : ((jsSplit x).map jsTrim).filter (fun p => some p != q) = []
  · rw [if_pos hnil, hnil]
    decide
  · rw [if_neg hnil]
    exact tokens_jsJoin _ hnil
      (fun t ht => tokens_wellformed x t (List.mem_filter.mp ht).1)

theorem Record.get_set_self (r : Record) (k v : String) : (r.set k v).get k = some v := by
  induction r with
  | nil => simp [Record.set, Record.get, List.lookup]
  | cons kv r ih =>
    obtain ⟨k0, v0⟩ := kv
    by_cases h : k0 = k
    · simp [Record.set, Record.get, h, List.lookup]
    · have h2 : (k == k0) = false := by simpa using fun e => h e.symm
      simp only [Record.set, h, if_false, Record.get, List.lookup, h2]
      exact ih

theorem Record.get_set_ne (r : Record) (k v k2 : String) (hk : k2 ≠ k) :
    (r.set k v).get k2 = r.get k2 := by
  induction r with
  | nil =>
    have h2 : (k2 == k) = false := by simpa using hk
    simp [Record.set, Record.get, List.lookup, h2]
  | cons kv r ih =>
    obtain ⟨k0, v0⟩ := kv
    by_cases h : k0 = k
    · subst h
      have h2 : (k2 == k0) = false := by simpa using hk
      simp [Record.set, Record.get, List.lookup, h2]
    · simp only [Record.set, h, if_false, Record.get, List.lookup]
      cases hb : (k2 == k0) with
      | true => rfl
      | false => exact ih

theorem deleteProject_eq (s : State) (i : Int) (project : Record)
    (hi : 0 ≤ i ∧ i < s.data.projects.length)
    (hget : s.data.projects[i.toNat]? = some project) :
    deleteProject s i =
      { s with
        data := { s.data with
          projects := s.data.projects.eraseIdx i.toNat
          resources := s.data.resources.map (fun resource =>
            resource.set "Assigned Projects"
              (jsJoin ((assignedNames resource).filter
                (fun p => some p != project.get "Project Name"))))
          productivity := s.data.productivity.filter (fun p =>
            p.get "Project Name" != project.get "Project Name") }
        unsavedChanges := { projects := true, resources := true, productivity := true } } := by
  unfold deleteProject
  rw [if_pos hi, hget]
  simp only [setUnsavedChanges, assignedNames, fieldOrEmpty, jsOrStr_empty]

theorem mem_deriveMaster (projects resources productivity : List Record) (row : Record)
    (hrow : row ∈ deriveMaster projects resources productivity) :
    ∃ n, row.get "Project" = some n ∧ n ≠ "" ∧
      (resourcesOf resources n ≠ [] ∨ mappingsOf productivity n ≠ []) := by
  rw [deriveMaster_eq_flatMap, List.mem_flatMap] at hrow
  obtain ⟨p, _, hp⟩ := hrow
  unfold projectRows at hp
  cases hname : p.get "Project Name" with
  | none => simp [hname] at hp
  | some n =>
    by_cases hn : n = ""
    · simp [hname, hn] at hp
    · simp only [hname, hn, if_false] at hp
      by_cases h1 : resourcesOf resources n = []
      · rw [if_pos h1] at hp
        obtain ⟨m, hm, rfl⟩ := List.mem_map.mp hp
        exact ⟨n, by simp [masterRow, Record.get], hn,
          Or.inr (List.ne_nil_of_mem hm)⟩
      · refine ⟨n, ?_, hn, Or.inl h1⟩
        rw [if_neg h1] at hp
        split_ifs at hp
        · obtain ⟨r, _, rfl⟩ := List.mem_map.mp hp
          simp [masterRow, Record.get]
        · obtain ⟨r, _, hr⟩ := List.mem_flatMap.mp hp
          obtain ⟨m, _, rfl⟩ := List.mem_map.mp hr
          simp [masterRow, Record.get]

theorem not_mem_assignedNames_after (r : Record) (n : String) (hn : n ≠ "") :
    n ∉ assignedNames (r.set "Assigned Projects"
      (jsJoin ((assignedNames r).filter (fun p => some p != some n)))) := by
  unfold assignedNames fieldOrEmpty
  rw [Record.get_set_self, Option.getD_some, tokens_after_removal]
  split_ifs with hnil
  · simpa using hn
  · intro hmem
    have := (List.mem_filter.mp hmem).2
    simp at this

theorem deleteProject_keeps_unique (s : State) (i : Int) (h : uniqueProjectNames s) :
    uniqueProjectNames (deleteProject s i) := by
  by_cases hi : 0 ≤ i ∧ i < s.data.projects.length
  · have hi2 : i.toNat < s.data.projects.length := by omega
    unfold uniqueProjectNames at h ⊢
    rw [deleteProject_eq s i _ hi (List.getElem?_eq_getElem hi2)]
    exact h.sublist ((List.eraseIdx_sublist _ _).map _)
  · simpa only [deleteProject, if_neg hi] using h

theorem submitAddProject_keeps_unique (s : State) (projectName projectDescription : String)
    (h : uniqueProjectNames s) :
    uniqueProjectNames (submitAddProject s projectName projectDescription) := by
  unfold submitAddProject
  simp only
  split_ifs
  · exact h
  · cases hfind : s.data.projects.find?
        (fun p => p.get "Project Name" == some (jsTrim projectName)) with
    | some p => exact h
    | none =>
      unfold uniqueProjectNames at h ⊢
      show ((s.data.projects ++ [_]).map _).Nodup
      rw [List.map_append, List.nodup_append]
      refine ⟨h, by simp, ?_⟩
      intro a ha hb
      simp only [List.map_cons, List.map_nil, List.mem_singleton] at hb
      obtain ⟨p, hp, rfl⟩ := List.mem_map.mp ha
      rw [List.find?_eq_none] at hfind
      have hne := hfind p hp
      apply hne
      rw [hb]
      simp [Record.get]


/-! ## The derived master -/

/-- C1: a project with a non-empty name `n`, at least one assigned resource and at least
one mapping contributes to the master exactly the cross product of its resources and
mappings, resource-major, each row carrying `n`, the resource name, the productivity
value and rate of the mapping, and the resource description when it is non-empty, the
project description otherwise; the block has as many rows as there are pairs. -/
theorem master_cross_product (s : State) (pre post : List Record) (p : Record) (n : String)
    (hprojects : s.data.projects = pre ++ p :: post)
    (hname : p.get "Project Name" = some n) (hn : n ≠ "")
    (hres : resourcesOf s.data.resources n ≠ [])
    (hmap : mappingsOf s.data.productivity n ≠ []) :
    (updateMasterDatabase s).data.master =
        deriveMaster pre s.data.resources s.data.productivity ++
        (resourcesOf s.data.resources n).flatMap (fun r =>
          (mappingsOf s.data.productivity n).map (fun m =>
            masterRow n (fieldOrEmpty r "Resource Name") (fieldOrEmpty m "Productivity Value")
              (fieldOrEmpty m "Rate") (rowDescription r p))) ++
        deriveMaster post s.data.resources s.data.productivity ∧
      ((resourcesOf s.data.resources n).flatMap (fun r =>
          (mappingsOf s.data.productivity n).map (fun m =>
            masterRow n (fieldOrEmpty r "Resource Name") (fieldOrEmpty m "Productivity Value")
              (fieldOrEmpty m "Rate") (rowDescription r p)))).length =
        (resourcesOf s.data.resources n).length * (mappingsOf s.data.productivity n).length := by
  constructor
  · show deriveMaster s.data.projects s.data.resources s.data.productivity = _
    rw [hprojects, deriveMaster_split]
    simp [projectRows, hname, hn, hres, hmap]
  · generalize resourcesOf s.data.resources n = rs
    induction rs with
    | nil => simp
    | cons r rs ih =>
      rw [List.flatMap_cons, List.length_append, ih]
      simp [Nat.succ_mul, Nat.add_comm]

/-- C1, on the join example: project `A`, resource `R1`, mappings `(A,1,10)` and
`(A,2,20)` give the two rows `(A,R1,1,10)` and `(A,R1,2,20)`, in that order. -/
theorem master_cross_product_witness :
    (updateMasterDatabase exJoin).data.master =
      [masterRow "A" "R1" "1" "10" "", masterRow "A" "R1" "2" "20" ""] :=
  (master_cross_product exJoin [] [] [("Project Name", "A")] "A" rfl rfl (by decide)
    (by decide) (by decide)).1.trans (by decide)

/-- C2: a project with a non-empty name `n`, no assigned resource and at least one mapping
contributes one row per mapping, in mapping order, with an empty resource, the
productivity value and rate of the mapping and the description of the project. -/
theorem master_no_resource (s : State) (pre post : List Record) (p : Record) (n : String)
    (hprojects : s.data.projects = pre ++ p :: post)
    (hname : p.get "Project Name" = some n) (hn : n ≠ "")
    (hres : resourcesOf s.data.resources n = [])
    (hmap : mappingsOf s.data.productivity n ≠ []) :
    (updateMasterDatabase s).data.master =
        deriveMaster pre s.data.resources s.data.productivity ++
        (mappingsOf s.data.productivity n).map (fun m =>
          masterRow n "" (fieldOrEmpty m "Productivity Value") (fieldOrEmpty m "Rate")
            (fieldOrEmpty p "Description")) ++
        deriveMaster post s.data.resources s.data.productivity ∧
      ((mappingsOf s.data.productivity n).map (fun m =>
          masterRow n "" (fieldOrEmpty m "Productivity Value") (fieldOrEmpty m "Rate")
            (fieldOrEmpty p "Description"))).length =
        (mappingsOf s.data.productivity n).length ∧
      0 < (mappingsOf s.data.productivity n).length := by
  refine ⟨?_, by simp, List.length_pos.mpr hmap⟩
  show deriveMaster s.data.projects s.data.resources s.data.productivity = _
  rw [hprojects, deriveMaster_split]
  simp [projectRows, hname, hn, hres]

/-- C2, on the example: project `B` with no resource and the mapping `(B,1,5)` gives
the single row `(B,"",1,5)`. -/
theorem master_no_resource_witness :
    (updateMasterDatabase exNoResource).data.master = [masterRow "B" "" "1" "5" ""] :=
  (master_no_resource exNoResource [] [] [("Project Name", "B")] "B" rfl rfl (by decide)
    (by decide) (by decide)).1.trans (by decide)

/-- C3: a project with a non-empty name `n`, at least one assigned resource and no mapping
contributes one row per resource, in resource order, with the resource name, empty
productivity and rate, and the resource description when it is non-empty, the project
description otherwise. -/
theorem master_no_mapping (s : State) (pre post : List Record) (p : Record) (n : String)
    (hprojects : s.data.projects = pre ++ p :: post)
    (hname : p.get "Project Name" = some n) (hn : n ≠ "")
    (hres : resourcesOf s.data.resources n ≠ [])
    (hmap : mappingsOf s.data.productivity n = []) :
    (updateMasterDatabase s).data.master =
        deriveMaster pre s.data.resources s.data.productivity ++
        (resourcesOf s.data.resources n).map (fun r =>
          masterRow n (fieldOrEmpty r "Resource Name") "" "" (rowDescription r p)) ++
        deriveMaster post s.data.resources s.data.productivity ∧
      ((resourcesOf s.data.resources n).map (fun r =>
          masterRow n (fieldOrEmpty r "Resource Name") "" "" (rowDescription r p))).length =
        (resourcesOf s.data.resources n).length ∧
      0 < (resourcesOf s.data.resources n).length := by
  refine ⟨?_, by simp, List.length_pos.mpr hres⟩
  show deriveMaster s.data.projects s.data.resources s.data.productivity = _
  rw [hprojects, deriveMaster_split]
  simp [projectRows, hname, hn, hres, hmap]

/-- C3, on the example: project `C` with resource `R2` and no mapping gives the single
row `(C,R2,"","")`. -/
theorem master_no_mapping_witness :
    (updateMasterDatabase exNoMapping).data.master = [masterRow "C" "R2" "" "" ""] :=
  (master_no_mapping exNoMapping [] [] [("Project Name", "C")] "C" rfl rfl (by decide)
    (by decide) (by decide)).1.trans (by decide)

/-- C4: a project record adds no row to the master being built exactly when its name is
empty or missing, or it has neither an assigned resource nor a mapping; and every row of
the master has a non-empty `Project` field. -/
theorem zero_rows_iff (resources productivity master : List Record) (p : Record) :
    (pushProjectRows resources productivity master p = master ↔
      (fieldOrEmpty p "Project Name" = "" ∨
        (resourcesOf resources (fieldOrEmpty p "Project Name") = [] ∧
          mappingsOf productivity (fieldOrEmpty p "Project Name") = []))) ∧
    ∀ s : State, ∀ row ∈ (updateMasterDatabase s).data.master,
      ∃ n, row.get "Project" = some n ∧ n ≠ "" := by
  constructor
  · rw [pushProjectRows_eq, List.append_right_eq_self]
    unfold projectRows fieldOrEmpty
    cases hname : p.get "Project Name" with
    | none => simp
    | some n =>
      by_cases hn : n = ""
      · simp [hn]
      · by_cases h1 : resourcesOf resources n = []
        · simp [hn, h1]
        · by_cases h2 : mappingsOf productivity n = []
          · simp [hn, h1, h2]
          · simp only [hn, h1, h2, if_false, Option.getD_some, false_or, false_and, iff_false]
            intro h
            rw [List.flatMap_eq_nil_iff] at h
            obtain ⟨r, rs, hr⟩ := List.exists_cons_of_ne_nil h1
            have := h r (by simp [hr])
            simp [h2] at this
  · intro s row hrow
    change row ∈ deriveMaster s.data.projects s.data.resources s.data.productivity at hrow
    rw [deriveMaster_eq_flatMap, List.mem_flatMap] at hrow
    obtain ⟨p, _, hp⟩ := hrow
    unfold projectRows at hp
    cases hname : p.get "Project Name" with
    | none => simp [hname] at hp
    | some n =>
      by_cases hn : n = ""
      · simp [hname, hn] at hp
      · refine ⟨n, ?_, hn⟩
        simp only [hname, hn, if_false] at hp
        split_ifs at hp
        · obtain ⟨m, _, rfl⟩ := List.mem_map.mp hp
          simp [masterRow, Record.get]
        · obtain ⟨r, _, rfl⟩ := List.mem_map.mp hp
          simp [masterRow, Record.get]
        · obtain ⟨r, _, hr⟩ := List.mem_flatMap.mp hp
          obtain ⟨m, _, rfl⟩ := List.mem_map.mp hr
          simp [masterRow, Record.get]

/-- C5: recomputing the master twice in succession gives the same state, in particular
the same master sequence, as recomputing it once. -/
theorem updateMasterDatabase_idempotent (s : State) :
    updateMasterDatabase (updateMasterDatabase s) = updateMasterDatabase s ∧
    (updateMasterDatabase (updateMasterDatabase s)).data.master =
      (updateMasterDatabase s).data.master :=
  ⟨rfl, rfl⟩

/-- C6: two states with the same projects, resources and productivity get the same master
from `updateMasterDatabase`, whatever their previous master, history, flags and tab; and
the master after `loadAllData` does not depend on the master table that was read. -/
theorem master_pure (s t : State)
    (hp : s.data.projects = t.data.projects)
    (hr : s.data.resources = t.data.resources)
    (hm : s.data.productivity = t.data.productivity) :
    (updateMasterDatabase s).data.master = (updateMasterDatabase t).data.master ∧
    ∀ (projects resources productivity m1 m2 h1 h2 : List Record),
      (loadAllData s projects resources productivity m1 h1).data.master =
        (loadAllData t projects resources productivity m2 h2).data.master := by
  constructor
  · show deriveMaster _ _ _ = deriveMaster _ _ _
    rw [hp, hr, hm]
  · intros
    rfl

/-- C6, on two states that share the three collections of the join example and differ in
master, history, dirty flags and tab. -/
theorem master_pure_witness :
    (updateMasterDatabase exJoin).data.master =
      (updateMasterDatabase
        { exJoin with
          currentTab := "master"
          data := { exJoin.data with
            master := [masterRow "Z" "Z" "9" "9" "stale"]
            calculatorHistory := [[("timestamp", "t")]] }
          unsavedChanges := { projects := true, resources := false, productivity := true }
        }).data.master :=
  (master_pure exJoin _ rfl rfl rfl).1

/-! ## Cascading delete -/

/-- C7: after `deleteProject` at a valid index followed by `updateMasterDatabase`, no row
of the master has the name of the deleted project as its `Project`, also when another
project record with that name remains. -/
theorem deleteProject_master (s : State) (i : Int) (project : Record)
    (hi : 0 ≤ i ∧ i < s.data.projects.length)
    (hget : s.data.projects[i.toNat]? = some project) :
    ∀ row ∈ (updateMasterDatabase (deleteProject s i)).data.master,
      row.get "Project" ≠ project.get "Project Name" := by
  intro row hrow heq
  rw [deleteProject_eq s i project hi hget] at hrow
  obtain ⟨n, hn1, hn2, hn3⟩ := mem_deriveMaster _ _ _ row hrow
  have hname : project.get "Project Name" = some n := by rw [← heq, hn1]
  rcases hn3 with h | h
  · apply h
    rw [resourcesOf, List.filter_eq_nil_iff]
    intro r hr
    obtain ⟨r0, _, rfl⟩ := List.mem_map.mp hr
    rw [hname]
    simpa using not_mem_assignedNames_after r0 n hn2
  · apply h
    rw [mappingsOf, List.filter_eq_nil_iff]
    intro m hm
    have := (List.mem_filter.mp hm).2
    rw [hname] at this
    simpa using this

/-- C7, on two project records both named `A`: deleting the first leaves an empty master,
although the second record named `A` remains. -/
theorem deleteProject_master_witness :
    (deleteProject exDuplicate 0).data.projects = [[("Project Name", "A")]] ∧
    (updateMasterDatabase exDuplicate).data.master ≠ [] ∧
    ∀ row ∈ (updateMasterDatabase (deleteProject exDuplicate 0)).data.master,
      row.get "Project" ≠ some "A" :=
  ⟨by decide, by decide,
   deleteProject_master exDuplicate 0 [("Project Name", "A"), ("Description", "first")]
    (by decide) (by decide)⟩

/-- C8: after `deleteProject` at a valid index the productivity collection is the previous
one without the records whose `Project Name` is that of the deleted project, the others
unchanged and in their order. -/
theorem deleteProject_productivity (s : State) (i : Int) (project : Record)
    (hi : 0 ≤ i ∧ i < s.data.projects.length)
    (hget : s.data.projects[i.toNat]? = some project) :
    (deleteProject s i).data.productivity =
      s.data.productivity.filter (fun m =>
        decide (m.get "Project Name" ≠ project.get "Project Name")) := by
  rw [deleteProject_eq s i project hi hget]
  show List.filter _ _ = List.filter _ _
  congr 1
  funext m
  by_cases h : m.get "Project Name" = project.get "Project Name" <;> simp [h]

/-- C8, on the two-project example: deleting `A` keeps exactly the mapping of `B`. -/
theorem deleteProject_productivity_witness :
    (deleteProject exTwoProjects 0).data.productivity =
      [[("Project Name", "B"), ("Productivity Value", "1"), ("Rate", "5")]] :=
  (deleteProject_productivity exTwoProjects 0 [("Project Name", "A")] (by decide)
    (by decide)).trans (by decide)

/-- C9, as stated, fails for a project whose name is the empty string: a resource with an
empty `Assigned Projects` still has the empty name among its assigned names afterwards. -/
theorem deleteProject_empty_name_remains :
    exEmptyName.data.projects[(0 : Int).toNat]? = some [("Project Name", "")] ∧
    ∃ r ∈ (deleteProject exEmptyName 0).data.resources, "" ∈ assignedNames r := by
  decide

/-- C9, amended: after `deleteProject` at a valid index the resources are the previous
ones, in order, each with only `Assigned Projects` rewritten to the comma-and-space join
of its trimmed comma-separated tokens other than the deleted name, in their order; the
deleted name, when it is non-empty, is no longer among the assigned names; and a resource
assigned only to the deleted name ends with an empty `Assigned Projects`. -/
theorem deleteProject_resources (s : State) (i : Int) (project : Record)
    (hi : 0 ≤ i ∧ i < s.data.projects.length)
    (hget : s.data.projects[i.toNat]? = some project) :
    (deleteProject s i).data.resources =
        s.data.resources.map (fun r =>
          r.set "Assigned Projects"
            (jsJoin ((assignedNames r).filter (fun t =>
              decide (some t ≠ project.get "Project Name"))))) ∧
      (deleteProject s i).data.resources.length = s.data.resources.length ∧
      (∀ (r : Record) (v k : String), k ≠ "Assigned Projects" →
        (r.set "Assigned Projects" v).get k = r.get k) ∧
      (∀ (r : Record) (v : String), (r.set "Assigned Projects" v).get "Assigned Projects" =
        some v) ∧
      (∀ n, project.get "Project Name" = some n → n ≠ "" →
        ∀ r ∈ (deleteProject s i).data.resources, n ∉ assignedNames r) ∧
      (∀ r ∈ s.data.resources,
        (∀ t ∈ assignedNames r, some t = project.get "Project Name") →
        jsJoin ((assignedNames r).filter (fun t =>
          decide (some t ≠ project.get "Project Name"))) = "") := by
  have hres : (deleteProject s i).data.resources =
      s.data.resources.map (fun r =>
        r.set "Assigned Projects"
          (jsJoin ((assignedNames r).filter (fun t =>
            decide (some t ≠ project.get "Project Name"))))) := by
    rw [deleteProject_eq s i project hi hget]
    show List.map _ _ = List.map _ _
    congr 1
    funext r
    congr 2
    congr 1
    funext t
    by_cases h : some t = project.get "Project Name" <;> simp [h]
  refine ⟨hres, by rw [hres, List.length_map],
    fun r v k hk => Record.get_set_ne r "Assigned Projects" v k hk,
    fun r v => Record.get_set_self r "Assigned Projects" v, ?_, ?_⟩
  · intro n hname hn r hr
    rw [deleteProject_eq s i project hi hget] at hr
    obtain ⟨r0, _, rfl⟩ := List.mem_map.mp hr
    rw [hname]
    exact not_mem_assignedNames_after r0 n hn
  · intro r _ hall
    have hnil : (assignedNames r).filter (fun t =>
        decide (some t ≠ project.get "Project Name")) = [] := by
      rw [List.filter_eq_nil_iff]
      intro t ht
      simp [hall t ht]
    rw [hnil]
    decide

/-- C9, amended, on the two-project example: deleting `A` leaves `R1` assigned to `B` and
`R2`, which was assigned only to `A`, with an empty `Assigned Projects`. -/
theorem deleteProject_resources_witness :
    (deleteProject exTwoProjects 0).data.resources =
      [[("Resource Name", "R1"), ("Assigned Projects", "B")],
       [("Resource Name", "R2"), ("Assigned Projects", "")]] :=
  (deleteProject_resources exTwoProjects 0 [("Project Name", "A")] (by decide)
    (by decide)).1.trans (by decide)

/-! ## Marking collections dirty -/

/-- C10: every add sets the dirty flag of its own collection; every update or delete at a
valid index of its collection sets the flag of that collection; `deleteProject` at a valid
index sets all three flags, whatever the resources and mappings are, also when there are
none; and `hasUnsavedChanges` holds after each of them. Each statement assumes the
validity of its own index only. -/
theorem mutators_mark_dirty (s : State) (r : Record) (i j k : Int) :
    ((addProject s r).unsavedChanges.projects = true ∧
      hasUnsavedChanges (addProject s r) = true ∧
      (addResource s r).unsavedChanges.resources = true ∧
      hasUnsavedChanges (addResource s r) = true ∧
      (addProductivity s r).unsavedChanges.productivity = true ∧
      hasUnsavedChanges (addProductivity s r) = true) ∧
    ((0 ≤ i ∧ i < s.data.projects.length) →
      (updateProject s i r).unsavedChanges.projects = true ∧
      hasUnsavedChanges (updateProject s i r) = true ∧
      (deleteProject s i).unsavedChanges.projects = true ∧
      (deleteProject s i).unsavedChanges.resources = true ∧
      (deleteProject s i).unsavedChanges.productivity = true ∧
      hasUnsavedChanges (deleteProject s i) = true) ∧
    ((0 ≤ j ∧ j < s.data.resources.length) →
      (updateResource s j r).unsavedChanges.resources = true ∧
      hasUnsavedChanges (updateResource s j r) = true ∧
      (deleteResource s j).unsavedChanges.resources = true ∧
      hasUnsavedChanges (deleteResource s j) = true) ∧
    ((0 ≤ k ∧ k < s.data.productivity.length) →
      (updateProductivity s k r).unsavedChanges.productivity = true ∧
      hasUnsavedChanges (updateProductivity s k r) = true ∧
      (deleteProductivity s k).unsavedChanges.productivity = true ∧
      hasUnsavedChanges (deleteProductivity s k) = true) := by
  refine ⟨?_, ?_, ?_, ?_⟩
  · simp [hasUnsavedChanges, addProject, addResource, addProductivity, setUnsavedChanges]
  · intro hi
    have hlt : i.toNat < s.data.projects.length := by omega
    have hdel : (deleteProject s i).unsavedChanges =
        { projects := true, resources := true, productivity := true } := by
      unfold deleteProject
      rw [if_pos hi]
      cases hget : s.data.projects[i.toNat]? with
      | none =>
        rw [List.getElem?_eq_none_iff] at hget
        omega
      | some project => rfl
    simp [hasUnsavedChanges, hdel, updateProject, setUnsavedChanges, hi]
  · intro hj
    simp [hasUnsavedChanges, updateResource, deleteResource, setUnsavedChanges, hj]
  · intro hk
    simp [hasUnsavedChanges, updateProductivity, deleteProductivity, setUnsavedChanges, hk]

/-- C10, on a state that holds one project and nothing else: no flag is set before;
deleting the project, which no resource and no mapping references, sets all three flags;
and adding a resource to the state built by the constructor sets the `resources` flag. -/
theorem mutators_mark_dirty_witness :
    hasUnsavedChanges exOnlyProject = false ∧
    ((deleteProject exOnlyProject 0).unsavedChanges.projects = true ∧
      (deleteProject exOnlyProject 0).unsavedChanges.resources = true ∧
      (deleteProject exOnlyProject 0).unsavedChanges.productivity = true ∧
      hasUnsavedChanges (deleteProject exOnlyProject 0) = true) ∧
    (addResource initialState []).unsavedChanges.resources = true :=
  ⟨by decide,
   ((mutators_mark_dirty exOnlyProject [] 0 0 0).2.1 (by decide)).2.2,
   (mutators_mark_dirty initialState [] 0 0 0).1.2.2.1⟩

/-- C11: a mutator that does not cascade leaves the dirty flags of the other two
collections as they were, at every index, valid or not. -/
theorem mutators_frame_flags (s : State) (r : Record) (i : Int) :
    ((addResource s r).unsavedChanges.projects = s.unsavedChanges.projects ∧
      (addResource s r).unsavedChanges.productivity = s.unsavedChanges.productivity ∧
      (updateResource s i r).unsavedChanges.projects = s.unsavedChanges.projects ∧
      (updateResource s i r).unsavedChanges.productivity = s.unsavedChanges.productivity ∧
      (deleteResource s i).unsavedChanges.projects = s.unsavedChanges.projects ∧
      (deleteResource s i).unsavedChanges.productivity = s.unsavedChanges.productivity) ∧
    ((addProject s r).unsavedChanges.resources = s.unsavedChanges.resources ∧
      (addProject s r).unsavedChanges.productivity = s.unsavedChanges.productivity ∧
      (updateProject s i r).unsavedChanges.resources = s.unsavedChanges.resources ∧
      (updateProject s i r).unsavedChanges.productivity = s.unsavedChanges.productivity) ∧
    ((addProductivity s r).unsavedChanges.projects = s.unsavedChanges.projects ∧
      (addProductivity s r).unsavedChanges.resources = s.unsavedChanges.resources ∧
      (updateProductivity s i r).unsavedChanges.projects = s.unsavedChanges.projects ∧
      (updateProductivity s i r).unsavedChanges.resources = s.unsavedChanges.resources ∧
      (deleteProductivity s i).unsavedChanges.projects = s.unsavedChanges.projects ∧
      (deleteProductivity s i).unsavedChanges.resources = s.unsavedChanges.resources) := by
  refine ⟨⟨rfl, rfl, ?_, ?_, ?_, ?_⟩, ⟨rfl, rfl, ?_, ?_⟩, ⟨rfl, rfl, ?_, ?_, ?_, ?_⟩⟩
  all_goals
    simp only [updateResource, deleteResource, updateProject, updateProductivity,
      deleteProductivity]
    split_ifs <;> rfl

/-- C12: `hasUnsavedChanges` is true exactly when at least one of the three dirty flags is
true, and false exactly when all three are false. -/
theorem hasUnsavedChanges_iff (s : State) :
    (hasUnsavedChanges s = true ↔
      (s.unsavedChanges.projects = true ∨ s.unsavedChanges.resources = true ∨
        s.unsavedChanges.productivity = true)) ∧
    (hasUnsavedChanges s = false ↔
      (s.unsavedChanges.projects = false ∧ s.unsavedChanges.resources = false ∧
        s.unsavedChanges.productivity = false)) := by
  unfold hasUnsavedChanges
  cases s.unsavedChanges.projects <;> cases s.unsavedChanges.resources <;>
    cases s.unsavedChanges.productivity <;> simp

/-! ## Results of the save methods -/

/-- C13: when the write of its own table succeeds, each of `saveProjects`,
`saveResources` and `saveProductivity` returns true, clears its own dirty flag and keeps
the other two flags. -/
theorem save_clears_own_flag {W : Type} (env : Env W) (s : State) (w : W) :
    ((saveCSV env "projects.csv" s.data.projects w).1 = true →
      (saveProjects env s w).1 = true ∧
      (saveProjects env s w).2.1.unsavedChanges =
        { s.unsavedChanges with projects := false }) ∧
    ((saveCSV env "resources.csv" s.data.resources w).1 = true →
      (saveResources env s w).1 = true ∧
      (saveResources env s w).2.1.unsavedChanges =
        { s.unsavedChanges with resources := false }) ∧
    ((saveCSV env "productivity.csv" s.data.productivity w).1 = true →
      (saveProductivity env s w).1 = true ∧
      (saveProductivity env s w).2.1.unsavedChanges =
        { s.unsavedChanges with productivity := false }) := by
  refine ⟨fun h => ?_, fun h => ?_, fun h => ?_⟩
  · simp [saveProjects, h, setUnsavedChanges]
  · simp [saveResources, h, setUnsavedChanges]
  · simp [saveProductivity, h, setUnsavedChanges, updateMasterDatabase]

/-- C13, on the join example with all flags set and a directory that accepts writes:
saving the resources returns true and clears the `resources` flag only. -/
theorem save_clears_own_flag_witness :
    (saveCSV (exEnv true) "resources.csv" exDirty.data.resources []).1 = true ∧
    (saveResources (exEnv true) exDirty []).1 = true ∧
    (saveResources (exEnv true) exDirty []).2.1.unsavedChanges =
      { projects := true, resources := false, productivity := true } :=
  ⟨by decide, (save_clears_own_flag (exEnv true) exDirty []).2.1 (by decide)⟩

/-- C14, as stated, fails for `saveMaster`: with a failing write it returns false, yet the
master in memory has been recomputed and differs from the one before the call. -/
theorem saveMaster_failure_changes_master :
    (saveMaster (exEnv false) exJoin []).1 = false ∧
    (saveMaster (exEnv false) exJoin []).2.1.data.master ≠ exJoin.data.master := by
  decide

/-- C14, amended: when its write fails, each of `saveProjects`, `saveResources`,
`saveProductivity` (write of `productivity.csv`) and `saveCalculatorHistory` returns false
and leaves the whole state as it was; `saveMaster` returns false and leaves projects,
resources, productivity, history and the dirty flags as they were, the master being the
recomputed one. -/
theorem save_failure {W : Type} (env : Env W) (s : State) (w : W) :
    ((saveCSV env "projects.csv" s.data.projects w).1 = false →
      (saveProjects env s w).1 = false ∧ (saveProjects env s w).2.1 = s) ∧
    ((saveCSV env "resources.csv" s.data.resources w).1 = false →
      (saveResources env s w).1 = false ∧ (saveResources env s w).2.1 = s) ∧
    ((saveCSV env "productivity.csv" s.data.productivity w).1 = false →
      (saveProductivity env s w).1 = false ∧ (saveProductivity env s w).2.1 = s) ∧
    ((saveCSV env "calculator_history.csv" s.data.calculatorHistory w).1 = false →
      (saveCalculatorHistory env s w).1 = false ∧
      (saveCalculatorHistory env s w).2.1 = s) ∧
    ((saveCSV env "master.csv"
        (deriveMaster s.data.projects s.data.resources s.data.productivity) w).1 = false →
      (saveMaster env s w).1 = false ∧
      (saveMaster env s w).2.1 =
        { s with data := { s.data with
            master := deriveMaster s.data.projects s.data.resources s.data.productivity } } ∧
      (saveMaster env s w).2.1.data.projects = s.data.projects ∧
      (saveMaster env s w).2.1.data.resources = s.data.resources ∧
      (saveMaster env s w).2.1.data.productivity = s.data.productivity ∧
      (saveMaster env s w).2.1.data.calculatorHistory = s.data.calculatorHistory ∧
      (saveMaster env s w).2.1.unsavedChanges = s.unsavedChanges) := by
  refine ⟨fun h => ?_, fun h => ?_, fun h => ?_, fun h => ?_, fun h => ?_⟩
  · simp [saveProjects, h]
  · simp [saveResources, h]
  · simp [saveProductivity, h]
  · simp [saveCalculatorHistory, h]
  · exact ⟨h, rfl, rfl, rfl, rfl, rfl, rfl⟩

/-- C14, amended, on the join example with all flags set and a directory that refuses
writes: saving the projects returns false and the state is the one before. -/
theorem save_failure_witness :
    (saveCSV (exEnv false) "projects.csv" exDirty.data.projects []).1 = false ∧
    (saveProjects (exEnv false) exDirty []).1 = false ∧
    (saveProjects (exEnv false) exDirty []).2.1 = exDirty :=
  ⟨by decide, (save_failure (exEnv false) exDirty []).1 (by decide)⟩

/-! ## Identity of records -/

/-- C15, as stated, fails: an update at an index that does not resolve is a silent no-op,
and its outcome, the state it leaves, is the very outcome of a successful update that
rewrites a record with itself in a collection already marked dirty. -/
theorem update_failure_indistinguishable :
    ¬ ((0 : Int) ≤ 5 ∧ (5 : Int) < exDirty.data.projects.length) ∧
    ((0 : Int) ≤ 0 ∧ (0 : Int) < exDirty.data.projects.length) ∧
    updateProject exDirty 5 [("Project Name", "A")] = exDirty ∧
    updateProject exDirty 0 [("Project Name", "A")] = exDirty ∧
    deleteProject exDirty (-1) = exDirty := by
  decide

/-- C15, amended: for each of the three collections, an update or a delete at an index
that does not resolve (negative, or not less than the length) is a silent no-op: the
state after the call is the state before it. -/
theorem unresolved_index_noop (s : State) (r : Record) (i j k : Int)
    (hi : ¬ (0 ≤ i ∧ i < s.data.projects.length))
    (hj : ¬ (0 ≤ j ∧ j < s.data.resources.length))
    (hk : ¬ (0 ≤ k ∧ k < s.data.productivity.length)) :
    updateProject s i r = s ∧ deleteProject s i = s ∧
    updateResource s j r = s ∧ deleteResource s j = s ∧
    updateProductivity s k r = s ∧ deleteProductivity s k = s := by
  refine ⟨?_, ?_, ?_, ?_, ?_, ?_⟩
  · simp only [updateProject, if_neg hi]
  · simp only [deleteProject, if_neg hi]
  · simp only [updateResource, if_neg hj]
  · simp only [deleteResource, if_neg hj]
  · simp only [updateProductivity, if_neg hk]
  · simp only [deleteProductivity, if_neg hk]

/-- C15, amended, on the join example: index `1` resolves in none of the one-record
project and resource collections, index `-1` in no collection. -/
theorem unresolved_index_noop_witness :
    updateProject exJoin 1 [] = exJoin ∧ deleteProject exJoin 1 = exJoin ∧
    updateResource exJoin 1 [] = exJoin ∧ deleteResource exJoin 1 = exJoin ∧
    updateProductivity exJoin (-1) [] = exJoin ∧ deleteProductivity exJoin (-1) = exJoin :=
  unresolved_index_noop exJoin [] 1 1 (-1) (by decide) (by decide) (by decide)

/-- C16, at the failing input: the project names of the two-project example are distinct;
editing the name of the second project to `A` in the table goes through `updateProject`
unchecked and leaves two records named `A`, whereas the add form refuses the name `A`. -/
theorem inline_edit_breaks_uniqueness :
    uniqueProjectNames exTwoProjects ∧
    (editProjectField exTwoProjects 1 "Project Name" "A").data.projects =
      [[("Project Name", "A")], [("Project Name", "A")]] ∧
    ¬ uniqueProjectNames (editProjectField exTwoProjects 1 "Project Name" "A") ∧
    submitAddProject exTwoProjects "A" "" = exTwoProjects := by
  decide

/-- C17: a delete at a valid index of its collection removes exactly the record at that
index, the others keeping their content and order and the length decreasing by one;
`deleteResource` and `deleteProductivity` leave every other collection as it was. Each
statement assumes the validity of its own index only. -/
theorem delete_removes_record (s : State) (i j k : Int) :
    ((0 ≤ i ∧ i < s.data.projects.length) →
      (deleteProject s i).data.projects =
        s.data.projects.take i.toNat ++ s.data.projects.drop (i.toNat + 1) ∧
      (deleteProject s i).data.projects.length + 1 = s.data.projects.length) ∧
    ((0 ≤ j ∧ j < s.data.resources.length) →
      (deleteResource s j).data =
        { s.data with
          resources := s.data.resources.take j.toNat ++ s.data.resources.drop (j.toNat + 1) } ∧
      (deleteResource s j).data.resources.length + 1 = s.data.resources.length) ∧
    ((0 ≤ k ∧ k < s.data.productivity.length) →
      (deleteProductivity s k).data =
        { s.data with
          productivity :=
            s.data.productivity.take k.toNat ++ s.data.productivity.drop (k.toNat + 1) } ∧
      (deleteProductivity s k).data.productivity.length + 1 = s.data.productivity.length) := by
  refine ⟨fun hi => ?_, fun hj => ?_, fun hk => ?_⟩
  · have hi2 : i.toNat < s.data.projects.length := by omega
    have hp : (deleteProject s i).data.projects = s.data.projects.eraseIdx i.toNat := by
      rw [deleteProject_eq s i _ hi (List.getElem?_eq_getElem hi2)]
    refine ⟨?_, ?_⟩
    · rw [hp, List.eraseIdx_eq_take_drop_succ]
    · rw [hp, List.length_eraseIdx, if_pos hi2]
      omega
  · have hj2 : j.toNat < s.data.resources.length := by omega
    have hr : (deleteResource s j).data =
        { s.data with resources := s.data.resources.eraseIdx j.toNat } := by
      simp only [deleteResource, if_pos hj]
      rfl
    refine ⟨?_, ?_⟩
    · rw [hr, List.eraseIdx_eq_take_drop_succ]
    · rw [hr]
      show (s.data.resources.eraseIdx j.toNat).length + 1 = _
      rw [List.length_eraseIdx, if_pos hj2]
      omega
  · have hk2 : k.toNat < s.data.productivity.length := by omega
    have hm : (deleteProductivity s k).data =
        { s.data with productivity := s.data.productivity.eraseIdx k.toNat } := by
      simp only [deleteProductivity, if_pos hk]
      rfl
    refine ⟨?_, ?_⟩
    · rw [hm, List.eraseIdx_eq_take_drop_succ]
    · rw [hm]
      show (s.data.productivity.eraseIdx k.toNat).length + 1 = _
      rw [List.length_eraseIdx, if_pos hk2]
      omega

/-- C17, on the example without mappings: deleting the resource at index `0` leaves no
resource and keeps the project; and on the two-project example deleting the project at
index `0` leaves `B`. -/
theorem delete_removes_record_witness :
    (deleteResource exNoMapping 0).data =
      { exNoMapping.data with resources := [] } ∧
    (deleteProject exTwoProjects 0).data.projects = [[("Project Name", "B")]] :=
  ⟨((delete_removes_record exNoMapping 0 0 0).2.1 (by decide)).1.trans (by decide),
   ((delete_removes_record exTwoProjects 0 0 0).1 (by decide)).1.trans (by decide)⟩

/-- C18: an update at a valid index of its collection replaces exactly the record at that
index: the collection keeps its length, the index holds the given record, every other
index holds what it held, and every other collection is as it was. Each statement assumes
the validity of its own index only. -/
theorem update_replaces_record (s : State) (r : Record) (i j k : Int) :
    ((0 ≤ i ∧ i < s.data.projects.length) →
      (updateProject s i r).data =
        { s.data with projects := (updateProject s i r).data.projects } ∧
      (updateProject s i r).data.projects.length = s.data.projects.length ∧
      (updateProject s i r).data.projects[i.toNat]? = some r ∧
      ∀ n : Nat, n ≠ i.toNat →
        (updateProject s i r).data.projects[n]? = s.data.projects[n]?) ∧
    ((0 ≤ j ∧ j < s.data.resources.length) →
      (updateResource s j r).data =
        { s.data with resources := (updateResource s j r).data.resources } ∧
      (updateResource s j r).data.resources.length = s.data.resources.length ∧
      (updateResource s j r).data.resources[j.toNat]? = some r ∧
      ∀ n : Nat, n ≠ j.toNat →
        (updateResource s j r).data.resources[n]? = s.data.resources[n]?) ∧
    ((0 ≤ k ∧ k < s.data.productivity.length) →
      (updateProductivity s k r).data =
        { s.data with productivity := (updateProductivity s k r).data.productivity } ∧
      (updateProductivity s k r).data.productivity.length = s.data.productivity.length ∧
      (updateProductivity s k r).data.productivity[k.toNat]? = some r ∧
      ∀ n : Nat, n ≠ k.toNat →
        (updateProductivity s k r).data.productivity[n]? = s.data.productivity[n]?) := by
  refine ⟨fun hi => ?_, fun hj => ?_, fun hk => ?_⟩
  · have hi2 : i.toNat < s.data.projects.length := by omega
    have hp : (updateProject s i r).data =
        { s.data with projects := s.data.projects.set i.toNat r } := by
      simp only [updateProject, if_pos hi]
      rfl
    refine ⟨?_, ?_, ?_, ?_⟩
    · rw [hp]
    · rw [hp]
      exact List.length_set _ _ _
    · rw [hp]
      exact List.getElem?_set_eq_of_lt _ hi2
    · intro n hn
      rw [hp]
      exact List.getElem?_set_ne (Ne.symm hn)
  · have hj2 : j.toNat < s.data.resources.length := by omega
    have hr : (updateResource s j r).data =
        { s.data with resources := s.data.resources.set j.toNat r } := by
      simp only [updateResource, if_pos hj]
      rfl
    refine ⟨?_, ?_, ?_, ?_⟩
    · rw [hr]
    · rw [hr]
      exact List.length_set _ _ _
    · rw [hr]
      exact List.getElem?_set_eq_of_lt _ hj2
    · intro n hn
      rw [hr]
      exact List.getElem?_set_ne (Ne.symm hn)
  · have hk2 : k.toNat < s.data.productivity.length := by omega
    have hm : (updateProductivity s k r).data =
        { s.data with productivity := s.data.productivity.set k.toNat r } := by
      simp only [updateProductivity, if_pos hk]
      rfl
    refine ⟨?_, ?_, ?_, ?_⟩
    · rw [hm]
    · rw [hm]
      exact List.length_set _ _ _
    · rw [hm]
      exact List.getElem?_set_eq_of_lt _ hk2
    · intro n hn
      rw [hm]
      exact List.getElem?_set_ne (Ne.symm hn)

/-- C18, on a state that holds one project and nothing else: updating the project at
index `0` replaces it; and on the two-project example updating the project at index `1`
replaces `B` and keeps `A`. -/
theorem update_replaces_record_witness :
    (updateProject exOnlyProject 0 [("Project Name", "Z")]).data.projects[(0 : Int).toNat]? =
      some [("Project Name", "Z")] ∧
    (updateProject exTwoProjects 1 [("Project Name", "Z")]).data.projects[(1 : Int).toNat]? =
      some [("Project Name", "Z")] ∧
    (updateProject exTwoProjects 1 [("Project Name", "Z")]).data.projects[0]? =
      some [("Project Name", "A")] :=
  ⟨((update_replaces_record exOnlyProject [("Project Name", "Z")] 0 0 0).1
      (by decide)).2.2.1,
   ((update_replaces_record exTwoProjects [("Project Name", "Z")] 1 1 1).1
      (by decide)).2.2.1,
   by decide⟩

/-- C19: an add appends the given record, whatever it is, as the last element of its
collection, also a record that repeats an existing key or has an empty name, and leaves
the other collections as they were. -/
theorem add_appends (s : State) (r : Record) :
    (addProject s r).data = { s.data with projects := s.data.projects ++ [r] } ∧
    (addResource s r).data = { s.data with resources := s.data.resources ++ [r] } ∧
    (addProductivity s r).data =
      { s.data with productivity := s.data.productivity ++ [r] } ∧
    (addProject s r).data.projects.getLast? = some r ∧
    (addResource s r).data.resources.getLast? = some r ∧
    (addProductivity s r).data.productivity.getLast? = some r ∧
    (addProject (addProject s r) r).data.projects = s.data.projects ++ [r, r] ∧
    (addProject s [("Project Name", "")]).data.projects =
      s.data.projects ++ [[("Project Name", "")]] := by
  refine ⟨rfl, rfl, rfl, ?_, ?_, ?_, ?_, rfl⟩
  · show (s.data.projects ++ [r]).getLast? = some r
    simp
  · show (s.data.resources ++ [r]).getLast? = some r
    simp
  · show (s.data.productivity ++ [r]).getLast? = some r
    simp
  · show (s.data.projects ++ [r]) ++ [r] = _
    simp

/-! ## Merging -/

/-- C20: for a single-field key, when at least one incoming record survives, `mergeCSV`
saves the existing table followed by the incoming records whose key value is non-empty
and is not the key value of an existing record, in their incoming order. -/
theorem mergeCSV_saves {W : Type} (env : Env W) (filename uniqueKey : String)
    (newRows : List Record) (w : W)
    (hsurvivor : newRows.filter (fun r =>
        decide (fieldOrEmpty r uniqueKey ≠ "" ∧
          ∀ e ∈ loadCSV env filename w, e.get uniqueKey ≠ r.get uniqueKey)) ≠ []) :
    mergeCSV env filename newRows uniqueKey w =
      saveCSV env filename
        (loadCSV env filename w ++
          newRows.filter (fun r =>
            decide (fieldOrEmpty r uniqueKey ≠ "" ∧
              ∀ e ∈ loadCSV env filename w, e.get uniqueKey ≠ r.get uniqueKey))) w := by
  have hfilter : (newRows.filter (fun row =>
      truthy (row.get uniqueKey) &&
        !((loadCSV env filename w).map (fun row => row.get uniqueKey)).contains
          (row.get uniqueKey))) =
      newRows.filter (fun r =>
        decide (fieldOrEmpty r uniqueKey ≠ "" ∧
          ∀ e ∈ loadCSV env filename w, e.get uniqueKey ≠ r.get uniqueKey)) := by
    congr 1
    funext r
    have h1 : truthy (r.get uniqueKey) = true ↔ fieldOrEmpty r uniqueKey ≠ "" := by
      unfold fieldOrEmpty
      cases r.get uniqueKey with
      | none => simp [truthy]
      | some v => simp [truthy]
    have h2 : (!((loadCSV env filename w).map (fun row => row.get uniqueKey)).contains
        (r.get uniqueKey)) = true ↔
        ∀ e ∈ loadCSV env filename w, e.get uniqueKey ≠ r.get uniqueKey := by
      simp
    rw [Bool.eq_iff_iff, Bool.and_eq_true, decide_eq_true_eq, h1, h2]
  unfold mergeCSV
  simp only [hfilter, List.length_eq_zero, if_neg hsurvivor]

/-- C20, on a directory whose `projects.csv` holds `A` and `B`: of the incoming `A`, `C`,
a record with an empty name and `D`, the records `C` and `D` are appended, in that order. -/
theorem mergeCSV_saves_witness :
    mergeCSV (exEnv true) "projects.csv"
        [[("Project Name", "A")], [("Project Name", "C")], [("Project Name", "")],
         [("Project Name", "D")]] "Project Name" exDisk =
      saveCSV (exEnv true) "projects.csv"
        [[("Project Name", "A"), ("Description", "first")],
         [("Project Name", "B"), ("Description", "second")],
         [("Project Name", "C")], [("Project Name", "D")]] exDisk :=
  (mergeCSV_saves (exEnv true) "projects.csv" "Project Name"
    [[("Project Name", "A")], [("Project Name", "C")], [("Project Name", "")],
     [("Project Name", "D")]] exDisk (by decide)).trans (by decide)

/-! ## Merging: keys -/

theorem mergeCSV_eq {W : Type} (env : Env W) (filename uniqueKey : String)
    (newRows : List Record) (w : W) :
    mergeCSV env filename newRows uniqueKey w =
      if survivorsOf (loadCSV env filename w) newRows uniqueKey = [] then (true, w)
      else saveCSV env filename
        (loadCSV env filename w ++ survivorsOf (loadCSV env filename w) newRows uniqueKey) w := by
  have hfilter : (newRows.filter (fun row =>
      truthy (row.get uniqueKey) &&
        !((loadCSV env filename w).map (fun row => row.get uniqueKey)).contains
          (row.get uniqueKey))) = survivorsOf (loadCSV env filename w) newRows uniqueKey := by
    unfold survivorsOf
    congr 1
    funext r
    have h1 : truthy (r.get uniqueKey) = true ↔ fieldOrEmpty r uniqueKey ≠ "" := by
      unfold fieldOrEmpty
      cases r.get uniqueKey with
      | none => simp [truthy]
      | some v => simp [truthy]
    have h2 : (!((loadCSV env filename w).map (fun row => row.get uniqueKey)).contains
        (r.get uniqueKey)) = true ↔
        ∀ e ∈ loadCSV env filename w, e.get uniqueKey ≠ r.get uniqueKey := by
      simp
    rw [Bool.eq_iff_iff, Bool.and_eq_true, decide_eq_true_eq, h1, h2]
  unfold mergeCSV
  simp only [hfilter, List.length_eq_zero]

theorem survivorsOf_absent_key (existing incoming : List Record) (k : String)
    (h : ∀ r ∈ incoming, r.get k = none) : survivorsOf existing incoming k = [] := by
  unfold survivorsOf
  rw [List.filter_eq_nil_iff]
  intro r hr
  simp [fieldOrEmpty, h r hr]

/-- C21, at the failing input: the project `A` exists and the productivity table is empty,
yet the bulk upload of the mapping `(A, 3, 30)` returns true and writes nothing, the file
system being as before; and so does `mergeCSV` with the key
`Project Name,Productivity Value` for every batch whose records have no field of that
very name. -/
theorem composite_key_appends_nothing :
    processBulkUpload specEnv exJoin
        [[("Project Name", "A"), ("Productivity Value", "3"), ("Rate", "30")]]
        "productivity" exFs = (true, exFs) ∧
    loadCSV specEnv "productivity.csv" exFs = [] ∧
    ∀ (batch : List Record) (w : FileSystem),
      (∀ r ∈ batch, r.get "Project Name,Productivity Value" = none) →
      mergeCSV specEnv "productivity.csv" batch "Project Name,Productivity Value" w =
        (true, w) := by
  refine ⟨by decide, by decide, ?_⟩
  intro batch w h
  rw [mergeCSV_eq, survivorsOf_absent_key _ _ _ h]
  rfl

/-- C28, at the failing input: the key values of the table `A`, `B` are pairwise distinct;
merging two incoming records that both carry the new key `C` saves both, and the key
values of the table loaded afterwards are not pairwise distinct. -/
theorem merge_duplicates_within_batch :
    (keyValues (loadCSV specEnv "projects.csv" exFs) "Project Name").Nodup ∧
    mergeCSV specEnv "projects.csv"
        [[("Project Name", "C"), ("Description", "x")],
         [("Project Name", "C"), ("Description", "y")]] "Project Name" exFs =
      saveCSV specEnv "projects.csv"
        [[("Project Name", "A"), ("Description", "first")],
         [("Project Name", "B"), ("Description", "second")],
         [("Project Name", "C"), ("Description", "x")],
         [("Project Name", "C"), ("Description", "y")]] exFs ∧
    keyValues (loadCSV specEnv "projects.csv"
        (mergeCSV specEnv "projects.csv"
          [[("Project Name", "C"), ("Description", "x")],
           [("Project Name", "C"), ("Description", "y")]] "Project Name" exFs).2)
        "Project Name" = [some "A", some "B", some "C", some "C"] ∧
    ¬ (keyValues (loadCSV specEnv "projects.csv"
        (mergeCSV specEnv "projects.csv"
          [[("Project Name", "C"), ("Description", "x")],
           [("Project Name", "C"), ("Description", "y")]] "Project Name" exFs).2)
        "Project Name").Nodup := by
  decide

theorem survivors_keys_distinct (existing incoming : List Record) (k : String)
    (hE : (keyValues existing k).Nodup)
    (hS : (keyValues (survivorsOf existing incoming k) k).Nodup) :
    (keyValues (existing ++ survivorsOf existing incoming k) k).Nodup := by
  unfold keyValues at *
  rw [List.map_append, List.nodup_append]
  refine ⟨hE, hS, ?_⟩
  intro a ha hb
  obtain ⟨e, he, rfl⟩ := List.mem_map.mp ha
  obtain ⟨r, hr, hre⟩ := List.mem_map.mp hb
  have hr2 := (List.mem_filter.mp hr).2
  simp only [decide_eq_true_eq] at hr2
  exact hr2.2 e he hre.symm

/-! ## Out-of-range indices -/

/-- C30: an update or a delete at an index that is negative or not less than the length
of its collection leaves the whole state as it was: the five collections and the three
dirty flags; in particular an out-of-range `deleteProject` removes nothing from the
resources and the productivity and marks nothing dirty. -/
theorem out_of_range_unchanged (s : State) (r : Record) (i j k : Int)
    (hi : i < 0 ∨ (s.data.projects.length : Int) ≤ i)
    (hj : j < 0 ∨ (s.data.resources.length : Int) ≤ j)
    (hk : k < 0 ∨ (s.data.productivity.length : Int) ≤ k) :
    (updateProject s i r = s ∧ deleteProject s i = s ∧
      updateResource s j r = s ∧ deleteResource s j = s ∧
      updateProductivity s k r = s ∧ deleteProductivity s k = s) ∧
    ((deleteProject s i).data.projects = s.data.projects ∧
      (deleteProject s i).data.resources = s.data.resources ∧
      (deleteProject s i).data.productivity = s.data.productivity ∧
      (deleteProject s i).data.master = s.data.master ∧
      (deleteProject s i).data.calculatorHistory = s.data.calculatorHistory ∧
      (deleteProject s i).unsavedChanges = s.unsavedChanges) := by
  have hi2 : ¬ (0 ≤ i ∧ i < s.data.projects.length) := by omega
  have hj2 : ¬ (0 ≤ j ∧ j < s.data.resources.length) := by omega
  have hk2 : ¬ (0 ≤ k ∧ k < s.data.productivity.length) := by omega
  have hdel : deleteProject s i = s := by simp only [deleteProject, if_neg hi2]
  refine ⟨⟨?_, hdel, ?_, ?_, ?_, ?_⟩, ?_⟩
  · simp only [updateProject, if_neg hi2]
  · simp only [updateResource, if_neg hj2]
  · simp only [deleteResource, if_neg hj2]
  · simp only [updateProductivity, if_neg hk2]
  · simp only [deleteProductivity, if_neg hk2]
  · rw [hdel]
    exact ⟨rfl, rfl, rfl, rfl, rfl, rfl⟩

/-- C30, on the two-project example: deleting at index `2`, one past the last project,
and at index `-1` leaves the resources, the productivity and the flags as they were. -/
theorem out_of_range_unchanged_witness :
    deleteProject exTwoProjects 2 = exTwoProjects ∧
    updateResource exTwoProjects 2 [] = exTwoProjects ∧
    deleteProductivity exTwoProjects (-1) = exTwoProjects :=
  have h := (out_of_range_unchanged exTwoProjects [] 2 2 (-1) (by decide) (by decide)
    (by decide)).1
  ⟨h.2.1, h.2.2.1, h.2.2.2.2.2⟩

/-! ## The join and the queries -/

theorem getResourcesForProject_eq (s : State) (n : String) :
    getResourcesForProject s n = resourcesOf s.data.resources n := by
  unfold getResourcesForProject resourcesOf assignedNames fieldOrEmpty
  congr 1
  funext r
  simp [jsOrStr_empty]

theorem getProductivityForProject_eq (s : State) (n : String) :
    getProductivityForProject s n = mappingsOf s.data.productivity n := by
  unfold getProductivityForProject mappingsOf
  congr 1
  funext m
  by_cases h : m.get "Project Name" = some n <;> simp [h]

theorem projectRows_eq_blockOf (s : State) (p : Record) :
    projectRows s.data.resources s.data.productivity p =
      if fieldOrEmpty p "Project Name" ≠ "" then
        blockOf (getResourcesForProject s (fieldOrEmpty p "Project Name"))
          (getProductivityForProject s (fieldOrEmpty p "Project Name"))
          (fieldOrEmpty p "Project Name") p
      else [] := by
  rw [getResourcesForProject_eq, getProductivityForProject_eq]
  unfold projectRows blockOf fieldOrEmpty
  cases hname : p.get "Project Name" with
  | none => simp
  | some n =>
    by_cases hn : n = ""
    · simp [hn]
    · simp [hn]

theorem deriveMaster_eq_blocks (s : State) :
    deriveMaster s.data.projects s.data.resources s.data.productivity =
      (s.data.projects.filter (fun p => decide (fieldOrEmpty p "Project Name" ≠ ""))).flatMap
        (fun p =>
          blockOf (getResourcesForProject s (fieldOrEmpty p "Project Name"))
            (getProductivityForProject s (fieldOrEmpty p "Project Name"))
            (fieldOrEmpty p "Project Name") p) := by
  rw [deriveMaster_eq_flatMap]
  induction s.data.projects with
  | nil => rfl
  | cons p ps ih =>
    rw [List.flatMap_cons, ih, projectRows_eq_blockOf, List.filter_cons]
    by_cases hn : fieldOrEmpty p "Project Name" = ""
    · simp [hn]
    · simp [hn]

/-- C29: after `updateMasterDatabase` the master is the concatenation, over the projects
with a non-empty name in stored order, of the block of each project, the block of the
project named `n` being built from `getResourcesForProject(n)` and
`getProductivityForProject(n)`, resource-major. -/
theorem master_refines_queries (s : State) :
    (updateMasterDatabase s).data.master =
      ((updateMasterDatabase s).data.projects.filter
          (fun p => decide (fieldOrEmpty p "Project Name" ≠ ""))).flatMap
        (fun p =>
          blockOf
            (getResourcesForProject (updateMasterDatabase s) (fieldOrEmpty p "Project Name"))
            (getProductivityForProject (updateMasterDatabase s)
              (fieldOrEmpty p "Project Name"))
            (fieldOrEmpty p "Project Name") p) :=
  deriveMaster_eq_blocks s

/-! ## The write handler of the main process -/

theorem lookup_putFile_self (files : List (String × String)) (path data : String) :
    (putFile files path data).lookup path = some data := by
  induction files with
  | nil => simp [putFile, List.lookup]
  | cons pd files ih =>
    obtain ⟨p, d⟩ := pd
    by_cases h : p = path
    · simp [putFile, h, List.lookup]
    · have h2 : (path == p) = false := by simpa using fun e => h e.symm
      simp only [putFile, h, if_false, List.lookup, h2]
      exact ih

theorem lookup_putFile_ne (files : List (String × String)) (path data q : String)
    (hq : q ≠ path) : (putFile files path data).lookup q = files.lookup q := by
  induction files with
  | nil =>
    have h2 : (q == path) = false := by simpa using hq
    simp [putFile, List.lookup, h2]
  | cons pd files ih =>
    obtain ⟨p, d⟩ := pd
    by_cases h : p = path
    · subst h
      have h2 : (q == p) = false := by simpa using hq
      simp [putFile, List.lookup, h2]
    · simp only [putFile, h, if_false, List.lookup]
      cases hb : (q == p) with
      | true => rfl
      | false => exact ih

theorem backupPathAt_ne_livePath (now : Nat) (filename : String) :
    backupPathAt now filename ≠ livePath filename := by
  intro h
  have hlen := congrArg String.length h
  simp only [backupPathAt, livePath, String.length_append] at hlen
  have h1 : "data/backup/".length = 12 := by decide
  have h2 : "data/".length = 5 := by decide
  have h3 : "_".length = 1 := by decide
  omega

theorem writeCsvFileHandler_eq (fs : FileSystem) (filename d : String)
    (hok : (writeCsvFileHandler fs filename d).1 = true) :
    (writeCsvFileHandler fs filename d).2 =
      { fs with files :=
          match fs.files.lookup (livePath filename) with
          | none => putFile fs.files (livePath filename) d
          | some c =>
            putFile (putFile fs.files (backupPathAt fs.now filename) c)
              (livePath filename) d } := by
  unfold writeCsvFileHandler at hok ⊢
  simp only [FileSystem.existsSync, FileSystem.copyFileSync, FileSystem.readFileSync,
    FileSystem.writeFileSync] at hok ⊢
  cases hlive : fs.files.lookup (livePath filename) with
  | none =>
    simp only [hlive, Option.isSome_none, Bool.false_eq_true, if_false, if_true] at hok ⊢
    by_cases hw : livePath filename ∈ fs.unwritable
    · simp [hw] at hok
    · simp [hw]
  | some c =>
    simp only [hlive, Option.isSome_some, if_true] at hok ⊢
    by_cases hb : backupPathAt fs.now filename ∈ fs.unwritable
    · simp [hb] at hok
    · by_cases hw : livePath filename ∈ fs.unwritable
      · simp [hb, hw] at hok
      · simp [hb, hw]

/-- C26: when the write handler succeeds, the live file holds the data written; when the
live file existed with content `c`, the backup file `data/backup/<timestamp>_<filename>`,
whose path differs from the live path, holds `c`, the content before the overwrite; and
when the live file did not exist, no backup is created: the live file is the only file
added or changed. -/
theorem backup_before_overwrite (fs : FileSystem) (filename d : String)
    (hok : (writeCsvFileHandler fs filename d).1 = true) :
    (writeCsvFileHandler fs filename d).2.readFileSync (livePath filename) = some d ∧
    backupPathAt fs.now filename ≠ livePath filename ∧
    (∀ c, fs.readFileSync (livePath filename) = some c →
      (writeCsvFileHandler fs filename d).2.readFileSync (backupPathAt fs.now filename) =
        some c) ∧
    (fs.readFileSync (livePath filename) = none →
      (writeCsvFileHandler fs filename d).2.files = putFile fs.files (livePath filename) d ∧
      ∀ p, p ≠ livePath filename →
        (writeCsvFileHandler fs filename d).2.readFileSync p = fs.readFileSync p) := by
  have heq := writeCsvFileHandler_eq fs filename d hok
  have hne := backupPathAt_ne_livePath fs.now filename
  refine ⟨?_, hne, ?_, ?_⟩
  · rw [heq]
    unfold FileSystem.readFileSync
    cases fs.files.lookup (livePath filename) with
    | none => exact lookup_putFile_self _ _ _
    | some c => exact lookup_putFile_self _ _ _
  · intro c hc
    rw [heq]
    unfold FileSystem.readFileSync at hc ⊢
    simp only [hc]
    rw [lookup_putFile_ne _ _ _ _ hne]
    exact lookup_putFile_self _ _ _
  · intro hnone
    rw [heq]
    unfold FileSystem.readFileSync at hnone ⊢
    simp only [hnone]
    exact ⟨trivial, fun p hp => lookup_putFile_ne _ _ _ _ hp⟩

/-- C26, on the example file system at time `17`: writing `projects.csv` succeeds, the
live file holds the new text and `data/backup/17_projects.csv` the previous one. -/
theorem backup_before_overwrite_witness :
    (writeCsvFileHandler exFs "projects.csv" "Project Name\nZ").1 = true ∧
    (writeCsvFileHandler exFs "projects.csv" "Project Name\nZ").2.files =
      [("data/projects.csv", "Project Name\nZ"),
       ("data/backup/17_projects.csv", "Project Name,Description\nA,first\nB,second\n")] ∧
    (writeCsvFileHandler exFs "projects.csv" "Project Name\nZ").2.readFileSync
      (backupPathAt exFs.now "projects.csv") =
        some "Project Name,Description\nA,first\nB,second\n" :=
  ⟨by decide, by decide,
   (backup_before_overwrite exFs "projects.csv" "Project Name\nZ" (by decide)).2.2.1 _
    (by decide)⟩

/-! ## Saving productivity -/

/-- C25, as stated, fails: where `productivity.csv` can be written and `master.csv`
cannot, `saveProductivity` returns true although the write of the master has failed and
`data/master.csv` does not exist afterwards. -/
theorem saveProductivity_master_write_fails :
    (saveProductivity specEnv exJoin exFsMasterLocked).1 = true ∧
    (saveCSV specEnv "master.csv" (updateMasterDatabase exJoin).data.master
      (saveCSV specEnv "productivity.csv" exJoin.data.productivity
        exFsMasterLocked).2).1 = false ∧
    (saveProductivity specEnv exJoin exFsMasterLocked).2.2.readFileSync
      "data/master.csv" = none := by
  decide

/-- C25, amended: whenever `saveProductivity` returns true, the master in memory is the
derivation of the current projects, resources and productivity, which are as before, and
the write of that master to `master.csv` has been issued after the write of the
productivity; the result of that second write does not enter the result. -/
theorem saveProductivity_true {W : Type} (env : Env W) (s : State) (w : W)
    (h : (saveProductivity env s w).1 = true) :
    (saveProductivity env s w).2.1.data.master =
      deriveMaster s.data.projects s.data.resources s.data.productivity ∧
    (saveProductivity env s w).2.1 =
      updateMasterDatabase (saveProductivity env s w).2.1 ∧
    (saveProductivity env s w).2.1.data.projects = s.data.projects ∧
    (saveProductivity env s w).2.1.data.resources = s.data.resources ∧
    (saveProductivity env s w).2.1.data.productivity = s.data.productivity ∧
    (saveCSV env "productivity.csv" s.data.productivity w).1 = true ∧
    (saveProductivity env s w).2.2 =
      (saveCSV env "master.csv"
        (deriveMaster s.data.projects s.data.resources s.data.productivity)
        (saveCSV env "productivity.csv" s.data.productivity w).2).2 := by
  have hw : (saveCSV env "productivity.csv" s.data.productivity w).1 = true := by
    by_contra hne
    simp [saveProductivity, hne] at h
  simp only [saveProductivity, hw, if_true]
  exact ⟨rfl, rfl, rfl, rfl, rfl, trivial, rfl⟩

/-- C25, amended, on the join example in a file system that accepts every write: the
result is true, the master in memory has the two rows of the join and `data/master.csv`
holds them. -/
theorem saveProductivity_true_witness :
    (saveProductivity specEnv exJoin exFs).1 = true ∧
    (saveProductivity specEnv exJoin exFs).2.1.data.master =
      [masterRow "A" "R1" "1" "10" "", masterRow "A" "R1" "2" "20" ""] ∧
    loadCSV specEnv "master.csv" (saveProductivity specEnv exJoin exFs).2.2 =
      [masterRow "A" "R1" "1" "10" "", masterRow "A" "R1" "2" "20" ""] :=
  ⟨by decide,
   (saveProductivity_true specEnv exJoin exFs (by decide)).1.trans (by decide),
   by decide⟩

/-! ## Bulk upload -/

/-- C24, as stated, fails: a batch of projects whose second row has an empty
`Project Name` passes the validation, the upload is enabled, and the first row is merged
into the table. -/
theorem bulk_upload_merges_partially :
    (validateBulkUploadData [[("Project Name", "C")], [("Project Name", "")]]
      "projects").valid = true ∧
    bulkUpload specEnv exJoin [[("Project Name", "C")], [("Project Name", "")]]
        "projects" exFs =
      some (saveCSV specEnv "projects.csv"
        [[("Project Name", "A"), ("Description", "first")],
         [("Project Name", "B"), ("Description", "second")],
         [("Project Name", "C")]] exFs) ∧
    (saveCSV specEnv "projects.csv"
        [[("Project Name", "A"), ("Description", "first")],
         [("Project Name", "B"), ("Description", "second")],
         [("Project Name", "C")]] exFs).1 = true := by
  decide

/-- C24, amended: the validation reports a batch as invalid exactly when the batch is
empty or its first row lacks a required field; a row with an empty value for a required
field does not make the batch invalid. An invalid batch is not uploaded; a valid batch of
projects or resources is merged by `mergeCSV`, which appends the rows whose key is
non-empty and new and drops the others. -/
theorem bulk_validation {W : Type} (env : Env W) (s : State) (data : List Record)
    (module : String) (w : W) :
    ((validateBulkUploadData data module).valid = true ↔
      ∃ first rest, data = first :: rest ∧
        ∀ f ∈ requiredFieldsOf module, (first.get f).isSome = true) ∧
    ((validateBulkUploadData data module).valid = false →
      bulkUpload env s data module w = none) ∧
    ((validateBulkUploadData data "projects").valid = true →
      bulkUpload env s data "projects" w =
        some (if survivorsOf (loadCSV env "projects.csv" w) data "Project Name" = []
          then (true, w)
          else saveCSV env "projects.csv"
            (loadCSV env "projects.csv" w ++
              survivorsOf (loadCSV env "projects.csv" w) data "Project Name") w)) ∧
    ((validateBulkUploadData data "resources").valid = true →
      bulkUpload env s data "resources" w =
        some (if survivorsOf (loadCSV env "resources.csv" w) data "Resource Name" = []
          then (true, w)
          else saveCSV env "resources.csv"
            (loadCSV env "resources.csv" w ++
              survivorsOf (loadCSV env "resources.csv" w) data "Resource Name") w)) := by
  refine ⟨?_, ?_, ?_, ?_⟩
  · unfold validateBulkUploadData validateCSVData
    cases data with
    | nil => simp
    | cons first rest =>
      by_cases hm : (requiredFieldsOf module).filter
          (fun field => !(first.get field).isSome) = []
      · simp only [hm, List.length_nil, gt_iff_lt, lt_self_iff_false, if_false, beq_self_eq_true,
          true_iff]
        rw [List.filter_eq_nil_iff] at hm
        refine ⟨first, rest, rfl, ?_⟩
        intro f hf
        have hf2 := hm f hf
        cases hg : first.get f with
        | none => simp [hg] at hf2
        | some v => rfl
      · have hpos : ((requiredFieldsOf module).filter
            (fun field => !(first.get field).isSome)).length > 0 :=
          List.length_pos.mpr hm
        simp only [hpos, if_true, List.length_cons, List.length_nil]
        constructor
        · intro h
          simp at h
        · rintro ⟨f0, r0, hcons, hall⟩
          exfalso
          apply hm
          rw [List.filter_eq_nil_iff]
          intro f hf
          have hf0 : first = f0 := (List.cons.inj hcons).1
          subst hf0
          simp [hall f hf]
  · intro h
    simp [bulkUpload, h]
  · intro h
    simp only [bulkUpload, h, if_true, processBulkUpload, mergeCSV_eq]
  · intro h
    simp only [bulkUpload, h, if_true, processBulkUpload, mergeCSV_eq]
    simp

/-- C24, amended, on a batch whose first row has no `Project Name` field: the batch is
invalid and is not uploaded. -/
theorem bulk_validation_witness :
    (validateBulkUploadData [[("Description", "x")], [("Project Name", "C")]]
      "projects").valid = false ∧
    bulkUpload specEnv exJoin [[("Description", "x")], [("Project Name", "C")]]
      "projects" exFs = none :=
  ⟨by decide,
   (bulk_validation specEnv exJoin [[("Description", "x")], [("Project Name", "C")]]
    "projects" exFs).2.1 (by decide)⟩

/-! ## Merging twice, merging with failures -/

theorem survivorsOf_after (existing incoming : List Record) (k : String) :
    survivorsOf (existing ++ survivorsOf existing incoming k) incoming k = [] := by
  unfold survivorsOf
  rw [List.filter_eq_nil_iff]
  intro r hr hcond
  simp only [decide_eq_true_eq] at hcond
  have hmem : r ∈ incoming.filter (fun r =>
      decide (fieldOrEmpty r k ≠ "" ∧ ∀ e ∈ existing, e.get k ≠ r.get k)) := by
    rw [List.mem_filter]
    refine ⟨hr, ?_⟩
    simp only [decide_eq_true_eq]
    exact ⟨hcond.1, fun e he => hcond.2 e (List.mem_append_left _ he)⟩
  exact hcond.2 r (List.mem_append_right _ hmem) rfl

theorem survivorsOf_congr (t1 t2 incoming : List Record) (k : String)
    (h : keyValues t1 k = keyValues t2 k) :
    survivorsOf t1 incoming k = survivorsOf t2 incoming k := by
  unfold survivorsOf
  congr 1
  funext r
  have hiff : ∀ t : List Record,
      (∀ e ∈ t, e.get k ≠ r.get k) ↔ r.get k ∉ keyValues t k := by
    intro t
    unfold keyValues
    simp only [List.mem_map, not_exists, not_and, ne_eq]
  rw [Bool.eq_iff_iff, decide_eq_true_eq, decide_eq_true_eq, hiff t1, hiff t2, h]

/-- C22, as stated, fails: on a `data/projects.csv` without a column `Project Name`, the
first merge of the record named `A` appends a row in which the key is lost, and the second
merge appends once more: the table after the second merge is not the table after the
first. -/
theorem merge_twice_appends_twice :
    loadCSV specEnv "projects.csv"
        (mergeCSV specEnv "projects.csv" [[("Project Name", "A")]] "Project Name"
          exFsNoKeyColumn).2 =
      [[("Name", "x"), ("Description", "d")], [("Name", ""), ("Description", "")]] ∧
    loadCSV specEnv "projects.csv"
        (mergeCSV specEnv "projects.csv" [[("Project Name", "A")]] "Project Name"
          (mergeCSV specEnv "projects.csv" [[("Project Name", "A")]] "Project Name"
            exFsNoKeyColumn).2).2 =
      [[("Name", "x"), ("Description", "d")], [("Name", ""), ("Description", "")],
       [("Name", ""), ("Description", "")]] ∧
    loadCSV specEnv "projects.csv"
        (mergeCSV specEnv "projects.csv" [[("Project Name", "A")]] "Project Name"
          (mergeCSV specEnv "projects.csv" [[("Project Name", "A")]] "Project Name"
            exFsNoKeyColumn).2).2 ≠
      loadCSV specEnv "projects.csv"
        (mergeCSV specEnv "projects.csv" [[("Project Name", "A")]] "Project Name"
          exFsNoKeyColumn).2 := by
  decide

/-- C22, amended: when the key values of the table loaded after the first merge are those
of the table that merge saved, a second `mergeCSV` with the same incoming records and key
finds no survivor: it returns true without writing, and the table is the one left by the
first merge. -/
theorem mergeCSV_idempotent {W : Type} (env : Env W) (filename uniqueKey : String)
    (newRows : List Record) (w : W)
    (hstore : survivorsOf (loadCSV env filename w) newRows uniqueKey ≠ [] →
      keyValues (loadCSV env filename
        (saveCSV env filename
          (loadCSV env filename w ++ survivorsOf (loadCSV env filename w) newRows uniqueKey)
          w).2) uniqueKey =
        keyValues
          (loadCSV env filename w ++ survivorsOf (loadCSV env filename w) newRows uniqueKey)
          uniqueKey) :
    mergeCSV env filename newRows uniqueKey (mergeCSV env filename newRows uniqueKey w).2 =
      (true, (mergeCSV env filename newRows uniqueKey w).2) ∧
    loadCSV env filename
      (mergeCSV env filename newRows uniqueKey
        (mergeCSV env filename newRows uniqueKey w).2).2 =
      loadCSV env filename (mergeCSV env filename newRows uniqueKey w).2 := by
  have hsecond : mergeCSV env filename newRows uniqueKey
      (mergeCSV env filename newRows uniqueKey w).2 =
      (true, (mergeCSV env filename newRows uniqueKey w).2) := by
    by_cases hS : survivorsOf (loadCSV env filename w) newRows uniqueKey = []
    · have hfirst : mergeCSV env filename newRows uniqueKey w = (true, w) := by
        rw [mergeCSV_eq, if_pos hS]
      rw [hfirst]
      exact hfirst
    · have hfirst : mergeCSV env filename newRows uniqueKey w =
          saveCSV env filename
            (loadCSV env filename w ++
              survivorsOf (loadCSV env filename w) newRows uniqueKey) w := by
        rw [mergeCSV_eq, if_neg hS]
      rw [hfirst, mergeCSV_eq, survivorsOf_congr _ _ _ _ (hstore hS), survivorsOf_after,
        if_pos rfl]
  exact ⟨hsecond, by rw [hsecond]⟩

/-- C22, amended, on a `data/projects.csv` that holds the header line only, with the text
format of the specification: after merging the record named `A` twice, the table holds exactly
one record named `A`. -/
theorem mergeCSV_idempotent_witness :
    loadCSV specEnv "projects.csv"
      (mergeCSV specEnv "projects.csv" [[("Project Name", "A")]] "Project Name"
        (mergeCSV specEnv "projects.csv" [[("Project Name", "A")]] "Project Name"
          exFsEmpty).2).2 = [[("Project Name", "A")]] :=
  (mergeCSV_idempotent specEnv "projects.csv" "Project Name" [[("Project Name", "A")]]
    exFsEmpty (fun _ => by decide)).2.trans (by decide)

/-- C23, as stated, fails: in the example file system `data/resources.csv` does not
exist, the read of the table fails, and `mergeCSV` returns true; and where the write of
`data/projects.csv` fails part-way, `mergeCSV` returns false and the table, which held `A`
and `B`, holds no record afterwards. -/
theorem merge_read_failure_not_reported :
    (specEnv.readCSVFile "resources.csv" exFs = none ∧
      (mergeCSV specEnv "resources.csv" [[("Resource Name", "R1")]] "Resource Name"
        exFs).1 = true) ∧
    (loadCSV specEnv "projects.csv" exFsTorn =
        [[("Project Name", "A"), ("Description", "first")],
         [("Project Name", "B"), ("Description", "second")]] ∧
      (mergeCSV specEnv "projects.csv" [[("Project Name", "C")]] "Project Name"
        exFsTorn).1 = false ∧
      loadCSV specEnv "projects.csv"
        (mergeCSV specEnv "projects.csv" [[("Project Name", "C")]] "Project Name"
          exFsTorn).2 = []) := by
  decide

/-- C23, amended: `mergeCSV` returns false exactly when there are survivors and the write
of the merged table fails; a failed read of the existing table is not reported: the table
is taken as empty, `mergeCSV` returning true when no incoming record has a non-empty key
and otherwise the result of saving those incoming records. -/
theorem merge_failure {W : Type} (env : Env W) (filename uniqueKey : String)
    (newRows : List Record) (w : W) :
    ((mergeCSV env filename newRows uniqueKey w).1 = false ↔
      (survivorsOf (loadCSV env filename w) newRows uniqueKey ≠ [] ∧
        (saveCSV env filename
          (loadCSV env filename w ++ survivorsOf (loadCSV env filename w) newRows uniqueKey)
          w).1 = false)) ∧
    (env.readCSVFile filename w = none →
      mergeCSV env filename newRows uniqueKey w =
        if survivorsOf [] newRows uniqueKey = [] then (true, w)
        else saveCSV env filename (survivorsOf [] newRows uniqueKey) w) := by
  refine ⟨?_, ?_⟩
  · rw [mergeCSV_eq]
    by_cases hS : survivorsOf (loadCSV env filename w) newRows uniqueKey = []
    · simp [hS]
    · simp [hS]
  · intro hread
    have hload : loadCSV env filename w = [] := by
      simp [loadCSV, hread]
    rw [mergeCSV_eq, hload]
    simp

/-- C23, amended, on a file system in which `data/master.csv` cannot be written: the merge
has a survivor, its write fails and `mergeCSV` returns false. -/
theorem merge_failure_witness :
    (mergeCSV specEnv "master.csv" [[("Project", "X")]] "Project"
      exFsMasterLocked).1 = false :=
  (merge_failure specEnv "master.csv" "Project" [[("Project", "X")]]
    exFsMasterLocked).1.mpr ⟨by decide, by decide⟩

/-! ## The text format: reading back what was written -/

theorem pushChars_cons (f g : List Char) (gs : List (List Char))
    (rows : List (List (List Char))) :
    f.foldr pushChar ((g :: gs) :: rows) = ((f ++ g) :: gs) :: rows := by
  induction f with
  | nil => rfl
  | cons c f ih => simp [List.foldr, ih, pushChar]

theorem scanCsv_afterQuote (rest : List Char) (h : rest.head? ≠ some csvQuote) :
    scanCsv ScanMode.afterQuote rest = scanCsv ScanMode.plain rest := by
  cases rest with
  | nil => simp [scanCsv]
  | cons c cs =>
    have hc : c ≠ csvQuote := by simpa using h
    simp [scanCsv, hc]

theorem scanCsv_unquoted (f rest : List Char) (hf : needsQuotes f = false) :
    scanCsv ScanMode.plain (f ++ rest) = f.foldr pushChar (scanCsv ScanMode.plain rest) := by
  induction f with
  | nil => rfl
  | cons c f ih =>
    simp only [needsQuotes, List.any_cons, Bool.or_eq_false_iff, beq_eq_false_iff_ne, ne_eq]
      at hf
    obtain ⟨⟨⟨h1, h2⟩, h3⟩, hrest⟩ := hf
    simp only [List.cons_append, scanCsv, h1, h2, h3, if_false, List.foldr]
    exact congrArg (pushChar c) (ih hrest)

theorem scanCsv_quoted (f rest : List Char) (h : rest.head? ≠ some csvQuote) :
    scanCsv ScanMode.quoted (doubleQuotes f ++ csvQuote :: rest) =
      f.foldr pushChar (scanCsv ScanMode.plain rest) := by
  induction f with
  | nil =>
    simp only [doubleQuotes, List.nil_append, scanCsv, if_true, List.foldr]
    exact scanCsv_afterQuote rest h
  | cons c f ih =>
    by_cases hc : c = csvQuote
    · subst hc
      simp only [doubleQuotes, if_true, List.cons_append, scanCsv, List.foldr]
      exact congrArg (pushChar csvQuote) ih
    · simp only [doubleQuotes, hc, if_false, List.cons_append, scanCsv, List.foldr]
      exact congrArg (pushChar c) ih

theorem scanCsv_escapeField (f rest : List Char) (h : rest.head? ≠ some csvQuote) :
    scanCsv ScanMode.plain (escapeField f ++ rest) =
      f.foldr pushChar (scanCsv ScanMode.plain rest) := by
  unfold escapeField
  cases hq : needsQuotes f with
  | false => simpa using scanCsv_unquoted f rest hq
  | true =>
    have hshape : (csvQuote :: (doubleQuotes f ++ [csvQuote])) ++ rest =
        csvQuote :: (doubleQuotes f ++ csvQuote :: rest) := by simp
    simp only [if_true]
    rw [hshape]
    simp only [scanCsv, if_true]
    exact scanCsv_quoted f rest h

theorem scanCsv_csvLine (f : List Char) (fs : List (List Char)) (rest : List Char)
    (tail : List (List (List Char))) (h : rest.head? ≠ some csvQuote)
    (hrest : scanCsv ScanMode.plain rest = [[]] :: tail) :
    scanCsv ScanMode.plain (csvLine (f :: fs) ++ rest) = (f :: fs) :: tail := by
  induction fs generalizing f with
  | nil =>
    simp only [csvLine, List.map_cons, List.map_nil, joinChars]
    rw [scanCsv_escapeField f rest h, hrest, pushChars_cons, List.append_nil]
  | cons g gs ih =>
    have hjoin : csvLine (f :: g :: gs) ++ rest =
        escapeField f ++ (',' :: (csvLine (g :: gs) ++ rest)) := by
      simp [csvLine, joinChars]
    have hcomma : (',' :: (csvLine (g :: gs) ++ rest)).head? ≠ some csvQuote := by
      simp only [List.head?_cons, ne_eq, Option.some.injEq]
      decide
    rw [hjoin, scanCsv_escapeField _ _ hcomma]
    have hstep : scanCsv ScanMode.plain (',' :: (csvLine (g :: gs) ++ rest)) =
        pushField (scanCsv ScanMode.plain (csvLine (g :: gs) ++ rest)) := by
      have h1 : ¬ (',' = csvQuote) := by decide
      simp [scanCsv, h1]
    rw [hstep, ih g, pushField, pushChars_cons, List.append_nil]

theorem scanCsv_csvText (l : List (List Char)) (ls : List (List (List Char)))
    (h : ∀ row ∈ l :: ls, row ≠ []) :
    scanCsv ScanMode.plain (csvText (l :: ls)) = l :: ls := by
  induction ls generalizing l with
  | nil =>
    obtain ⟨f, fs, rfl⟩ := List.exists_cons_of_ne_nil (h l (List.mem_cons_self _ _))
    have := scanCsv_csvLine f fs [] [] (by simp) (by simp [scanCsv])
    simpa [csvText, joinChars] using this
  | cons m ms ih =>
    obtain ⟨f, fs, rfl⟩ := List.exists_cons_of_ne_nil (h l (List.mem_cons_self _ _))
    have hms : ∀ row ∈ m :: ms, row ≠ [] := fun row hrow => h row (List.mem_cons_of_mem _ hrow)
    have hjoin : csvText ((f :: fs) :: m :: ms) =
        csvLine (f :: fs) ++ (csvNewline :: csvText (m :: ms)) := by
      simp [csvText, joinChars]
    have hnl : (csvNewline :: csvText (m :: ms)).head? ≠ some csvQuote := by
      simp only [List.head?_cons, ne_eq, Option.some.injEq]
      decide
    have hstep : scanCsv ScanMode.plain (csvNewline :: csvText (m :: ms)) =
        [[]] :: (m :: ms) := by
      have h1 : ¬ (csvNewline = csvQuote) := by decide
      have h2 : ¬ (csvNewline = ',') := by decide
      simp [scanCsv, h1, h2, ih m hms]
    rw [hjoin, scanCsv_csvLine f fs _ _ hnl hstep]

theorem lookup_of_mem_nodup (r : Record) (hnodup : (r.map Prod.fst).Nodup)
    (k v : String) (hmem : (k, v) ∈ r) : r.lookup k = some v := by
  induction r with
  | nil => simp at hmem
  | cons kv r ih =>
    obtain ⟨k0, v0⟩ := kv
    simp only [List.map_cons, List.nodup_cons] at hnodup
    rcases List.mem_cons.mp hmem with heq | hmem2
    · cases heq
      simp [List.lookup]
    · have hne : (k == k0) = false := by
        simp only [beq_eq_false_iff_ne, ne_eq]
        intro hk
        subst hk
        exact hnodup.1 (List.mem_map.mpr ⟨(k, v), hmem2, rfl⟩)
      simp only [List.lookup, hne]
      exact ih hnodup.2 hmem2

theorem values_in_header_order (r : Record) (hnodup : (r.map Prod.fst).Nodup) :
    (r.map Prod.fst).map (fun f => (r.get f).getD "") = r.map Prod.snd := by
  rw [List.map_map]
  apply List.map_congr_left
  intro kv hkv
  obtain ⟨k, v⟩ := kv
  simp [Record.get, lookup_of_mem_nodup r hnodup k v hkv]

theorem zip_fst_snd (r : Record) : (r.map Prod.fst).zip (r.map Prod.snd) = r := by
  induction r with
  | nil => rfl
  | cons kv r ih => simp [ih]

theorem map_data_ne_singleton_nil (l : List String) (h : l ≠ [""]) :
    l.map String.data ≠ [[]] := by
  intro hmap
  apply h
  cases l with
  | nil => simp at hmap
  | cons a l =>
    cases l with
    | nil =>
      simp only [List.map_cons, List.map_nil, List.cons.injEq, and_true] at hmap
      have ha : a = "" := String.ext hmap
      rw [ha]
    | cons b l => simp at hmap

theorem map_mk_data (l : List String) : l.map (fun s => String.mk s.data) = l := by
  induction l with
  | nil => rfl
  | cons a l ih => rw [List.map_cons, ih]

theorem specParse_specUnparse (records : List Record) (fields : List String)
    (hfields : ∀ r ∈ records, r.map Prod.fst = fields)
    (hnodup : fields.Nodup) (hne : fields ≠ []) (hheader : fields ≠ [""])
    (hlines : ∀ r ∈ records, r.map Prod.snd ≠ [""]) :
    specParse (specUnparse records) = records := by
  cases records with
  | nil => rfl
  | cons first rest =>
    have hfirst : first.map Prod.fst = fields := hfields first (List.mem_cons_self _ _)
    have hheaderEq : first.map (fun kv => kv.1.data) = fields.map String.data := by
      rw [← hfirst, List.map_map]
      rfl
    have hlinesEq : (first :: rest).map
        (fun r => first.map (fun kv => ((r.get kv.1).getD "").data)) =
        (first :: rest).map (fun r => (r.map Prod.snd).map String.data) := by
      apply List.map_congr_left
      intro r hr
      have hr1 : (r.map Prod.fst).Nodup := by rw [hfields r hr]; exact hnodup
      have hv := values_in_header_order r hr1
      rw [hfields r hr, ← hfirst] at hv
      rw [← hv, List.map_map, List.map_map]
      rfl
    have hrowsNe : ∀ row ∈ fields.map String.data ::
        (first :: rest).map (fun r => (r.map Prod.snd).map String.data), row ≠ [] := by
      intro row hrow
      rcases List.mem_cons.mp hrow with rfl | hrow
      · simpa using hne
      · obtain ⟨r, hr, rfl⟩ := List.mem_map.mp hrow
        intro hnil
        have hlen := congrArg List.length hnil
        have hlen2 := congrArg List.length (hfields r hr)
        simp only [List.length_map, List.length_nil] at hlen hlen2
        apply hne
        exact List.length_eq_zero.mp (by omega)
    have hrowsNe2 : ∀ row ∈ fields.map String.data ::
        (first :: rest).map (fun r => (r.map Prod.snd).map String.data), row ≠ [[]] := by
      intro row hrow
      rcases List.mem_cons.mp hrow with rfl | hrow
      · exact map_data_ne_singleton_nil fields hheader
      · obtain ⟨r, hr, rfl⟩ := List.mem_map.mp hrow
        exact map_data_ne_singleton_nil _ (hlines r hr)
    have hfilter : (fields.map String.data ::
        (first :: rest).map (fun r => (r.map Prod.snd).map String.data)).filter
          (fun row => decide (row ≠ [[]])) =
        fields.map String.data ::
          (first :: rest).map (fun r => (r.map Prod.snd).map String.data) := by
      rw [List.filter_eq_self]
      intro row hrow
      simpa using hrowsNe2 row hrow
    unfold specParse specUnparse
    simp only [hheaderEq, hlinesEq, scanCsv_csvText _ _ hrowsNe, hfilter]
    rw [List.map_map]
    conv_rhs => rw [← List.map_id (first :: rest)]
    apply List.map_congr_left
    intro r hr
    simp only [Function.comp, List.map_map, id]
    have h1 : fields.map (fun s => String.mk s.data) = fields := map_mk_data fields
    have h2 : (r.map Prod.snd).map (fun s => String.mk s.data) = r.map Prod.snd :=
      map_mk_data _
    have h3 : (List.map (String.mk ∘ String.data) fields).zip
        (List.map (String.mk ∘ String.data ∘ Prod.snd) r) = r := by
      have h4 : List.map (String.mk ∘ String.data ∘ Prod.snd) r =
          (r.map Prod.snd).map (fun s => String.mk s.data) := by
        rw [List.map_map]
        rfl
      rw [h4, h2]
      show (fields.map (fun s => String.mk s.data)).zip _ = r
      rw [h1, ← hfields r hr]
      exact zip_fst_snd r
    exact h3

theorem writeCsvFileHandler_read (fs : FileSystem) (filename d : String)
    (hok : (writeCsvFileHandler fs filename d).1 = true) :
    (writeCsvFileHandler fs filename d).2.readFileSync (livePath filename) = some d := by
  rw [writeCsvFileHandler_eq fs filename d hok]
  unfold FileSystem.readFileSync
  cases fs.files.lookup (livePath filename) with
  | none => exact lookup_putFile_self _ _ _
  | some c => exact lookup_putFile_self _ _ _

/-- C27, as stated, fails: the record set made of one record with the single field
`Project Name` whose value is the empty string is saved with success, its line is empty,
and loading the table yields no record. -/
theorem round_trip_single_empty_field :
    (saveCSV specEnv "projects.csv" [[("Project Name", "")]] exFs).1 = true ∧
    loadCSV specEnv "projects.csv"
      (saveCSV specEnv "projects.csv" [[("Project Name", "")]] exFs).2 = [] ∧
    loadCSV specEnv "projects.csv"
      (saveCSV specEnv "projects.csv" [[("Project Name", "")]] exFs).2 ≠
      [[("Project Name", "")]] := by
  decide

/-- C27, amended: for a record set whose records all have the same fields in the same
order, with distinct names and string values, and in which no written line is empty (there
is at least one field, and neither the header nor any record is a single empty string),
`saveCSV`, when its write succeeds, followed by `loadCSV` of the same file yields the
record set, field for field and in the same order. -/
theorem save_load_round_trip (fs : FileSystem) (filename : String) (records : List Record)
    (fields : List String)
    (hsave : (saveCSV specEnv filename records fs).1 = true)
    (hfields : ∀ r ∈ records, r.map Prod.fst = fields)
    (hnodup : fields.Nodup) (hne : fields ≠ []) (hheader : fields ≠ [""])
    (hlines : ∀ r ∈ records, r.map Prod.snd ≠ [""]) :
    loadCSV specEnv filename (saveCSV specEnv filename records fs).2 = records := by
  have hread : (saveCSV specEnv filename records fs).2.readFileSync (livePath filename) =
      some (specUnparse records) :=
    writeCsvFileHandler_read fs filename (specUnparse records) hsave
  have hload : loadCSV specEnv filename (saveCSV specEnv filename records fs).2 =
      specParse (specUnparse records) := by
    unfold loadCSV
    show (match (saveCSV specEnv filename records fs).2.readFileSync (livePath filename) with
      | none => []
      | some data => specParse data) = _
    rw [hread]
  rw [hload]
  exact specParse_specUnparse records fields hfields hnodup hne hheader hlines

/-- C27, amended, on two project records whose values hold a comma, double quotes, a line
break and an empty string. -/
theorem save_load_round_trip_witness :
    loadCSV specEnv "projects.csv"
      (saveCSV specEnv "projects.csv"
        [[("Project Name", "A, the first"), ("Description", "say \"hi\"")],
         [("Project Name", "B"), ("Description", "")],
         [("Project Name", ""), ("Description", "two\nlines")]] exFs).2 =
      [[("Project Name", "A, the first"), ("Description", "say \"hi\"")],
       [("Project Name", "B"), ("Description", "")],
       [("Project Name", ""), ("Description", "two\nlines")]] :=
  save_load_round_trip exFs "projects.csv"
    [[("Project Name", "A, the first"), ("Description", "say \"hi\"")],
     [("Project Name", "B"), ("Description", "")],
     [("Project Name", ""), ("Description", "two\nlines")]]
    ["Project Name", "Description"] (by decide) (by decide) (by decide) (by decide)
    (by decide) (by decide)

end Calculator
